import Mathlib

/-!
Verification of the FIDE tournament-report scraping core
(`src/scraper/get_tournament_reports.py`): score/forfeit parsing,
round-date parsing and format inference, the HTML table walk with
anchor resolution, and the game-reconstruction (dedup) pass.

Python strings are modelled as Lean `String`s (operated on through
their character lists); Python `float` scores are modelled as exact
rationals (the only score values the code accepts, 0, 1/2 and 1, are
exactly representable, and numeric tokens are modelled by their exact
decimal value); Python `None` becomes `Option`.
-/

namespace FideReports

/-- ASCII decimal digit test, the model of Python's regex `\d` and
of `str.isdigit` on the scraped ASCII texts. -/
def isDig (c : Char) : Bool := '0' ≤ c ∧ c ≤ '9'

/-- Whitespace test, the model of Python's `\s` and of the characters
removed by `str.strip`. -/
def isWS (c : Char) : Bool := c = ' ' ∨ c = '\t' ∨ c = '\n' ∨ c = '\r'

/-- Model of Python `str.strip()` on a character list. -/
def trimChars (l : List Char) : List Char :=
  ((l.dropWhile isWS).reverse.dropWhile isWS).reverse

/-- ASCII lower-casing of one character, the model of `str.lower`. -/
def lowChar (c : Char) : Char :=
  if 'A' ≤ c ∧ c ≤ 'Z' then Char.ofNat (c.toNat + 32) else c

/-- Model of Python `str.lower()` on a character list. -/
def lowerList (l : List Char) : List Char := l.map lowChar

/-- Does `pat` occur as a prefix of `hay`? (helper for substring search). -/
def leadMatch : List Char → List Char → Bool
  | [], _ => true
  | _ :: _, [] => false
  | p :: ps, c :: cs => p = c && leadMatch ps cs

/-- Does `pat` occur as a contiguous substring of `hay`?  Model of
Python's `pat in hay`. -/
def hasSub (hay pat : List Char) : Bool :=
  match hay with
  | [] => leadMatch pat []
  | _ :: t => leadMatch pat hay || hasSub t pat

/-- Does `hay` end with `pat`?  Model of Python's `str.endswith`. -/
def endsWithList (hay pat : List Char) : Bool :=
  leadMatch pat.reverse hay.reverse

/-- Numeric value of a digit list (most significant first). -/
def natOfDigits (l : List Char) : Nat :=
  l.foldl (fun n c => n * 10 + (c.toNat - '0'.toNat)) 0

/-- Model of Python `int(s)`: optional surrounding whitespace, optional
sign, then a non-empty digit string; anything else raises (returns
`none`). -/
def pyInt (l : List Char) : Option Int :=
  let t := trimChars l
  match t with
  | '-' :: ds => if ds ≠ [] ∧ ds.all isDig then some (-(natOfDigits ds : Int)) else none
  | '+' :: ds => if ds ≠ [] ∧ ds.all isDig then some ((natOfDigits ds : Int)) else none
  | ds => if ds ≠ [] ∧ ds.all isDig then some ((natOfDigits ds : Int)) else none

/-- Model of Python `int(s)` applied to a `String`. -/
def pyIntStr (s : String) : Option Int := pyInt s.data

/-- Exact decimal value of a digit string with an optional fractional
part, used to model `float()` of a matched `\d+\.?\d*` token.  Written
with `mkRat` over natural-number arithmetic so that it evaluates inside
the kernel. -/
def decValue (intPart fracPart : List Char) : ℚ :=
  mkRat (natOfDigits intPart * 10 ^ fracPart.length + natOfDigits fracPart)
    (10 ^ fracPart.length)

/-- Model of Python `float(s)` restricted to simple decimal literals
(optional sign, digits with an optional point); used only for the
players' total score column. -/
def pyFloat (l : List Char) : Option ℚ :=
  let t := trimChars l
  let core : List Char → Option ℚ := fun u =>
    let ds := u.takeWhile isDig
    let rest := u.dropWhile isDig
    match rest with
    | [] => if ds ≠ [] then some (decValue ds []) else none
    | '.' :: fs =>
      if fs.all isDig ∧ (ds ≠ [] ∨ fs ≠ []) then some (decValue ds fs) else none
    | _ => none
  match t with
  | '-' :: u => (core u).map (fun q => -q)
  | '+' :: u => core u
  | u => core u

/-- Value of the first match of the regex `(\d+\.?\d*)` in a character
list (`re.search` semantics: leftmost match, greedy), as an exact
rational; `none` when no digit occurs. -/
def firstDecimal : List Char → Option ℚ
  | [] => none
  | c :: rest =>
    if isDig c then
      let ds := (c :: rest).takeWhile isDig
      let r1 := (c :: rest).dropWhile isDig
      match r1 with
      | '.' :: r2 => some (decValue ds (r2.takeWhile isDig))
      | _ => some (decValue ds [])
    else firstDecimal rest

/-- Model of `parse_score`: `None` for empty text, for forfeit-marked
text (contains "forfeit", or is exactly "-" or "+" after
strip/lower), and for text whose first decimal token is not exactly
0, 0.5 or 1; otherwise the parsed score. -/
def parse_score (s : String) : Option ℚ :=
  if s = "" then none
  else if hasSub (lowerList (trimChars s.data)) "forfeit".data
      || lowerList (trimChars s.data) = "-".data
      || lowerList (trimChars s.data) = "+".data then none
  else
    match firstDecimal (lowerList (trimChars s.data)) with
    | some q => if q = 0 ∨ q = mkRat 1 2 ∨ q = 1 then some q else none
    | none => none

/-- Model of `extract_forfeit_indicator`: "-" or "+" for forfeit-marked
text (with "-" the default when the text says "forfeit" without a
sign), otherwise the empty string. -/
def extract_forfeit_indicator (s : String) : String :=
  if s = "" then ""
  else if hasSub (lowerList (trimChars s.data)) "forfeit".data then
    if hasSub (trimChars s.data) "-".data ∨ endsWithList (trimChars s.data) "-".data then "-"
    else if hasSub (trimChars s.data) "+".data ∨ endsWithList (trimChars s.data) "+".data then "+"
    else "-"
  else if trimChars s.data = "-".data then "-"
  else if trimChars s.data = "+".data then "+"
  else ""

/-- Model of `_to_year`: 4-digit years are taken verbatim, other year
strings map to `20xx` below 50 and to `19xx` otherwise. -/
def to_year (y : List Char) : Option Int :=
  (pyInt y).map (fun n => if y.length = 4 then n else if n < 50 then 2000 + n else 1900 + n)

/-- Prefix match of the regex `\d{1,2}/\d{1,2}/\d{2,4}` (as used by the
round-date guard): one or two digits, a slash, one or two digits, a
slash, then at least two digits; trailing characters are allowed. -/
def slashTriple (l : List Char) : Bool :=
  let d1 := l.takeWhile isDig
  let r1 := l.dropWhile isDig
  if d1.length < 1 ∨ 2 < d1.length then false
  else
    match r1 with
    | '/' :: r2 =>
      let d2 := r2.takeWhile isDig
      let r3 := r2.dropWhile isDig
      if d2.length < 1 ∨ 2 < d2.length then false
      else
        match r3 with
        | '/' :: r4 => 2 ≤ (r4.takeWhile isDig).length
        | _ => false
    | _ => false

/-- Split a character list at every occurrence of `sep` (model of
Python `str.split(sep)` for a one-character separator). -/
def splitChar (sep : Char) (l : List Char) : List (List Char) :=
  match l with
  | [] => [[]]
  | c :: rest =>
    let r := splitChar sep rest
    if c = sep then [] :: r
    else
      match r with
      | h :: t => (c :: h) :: t
      | [] => [[c]]

/-- Zero-padded decimal rendering of a natural number, at least `w`
digits wide (model of Python's `{:0wd}` format). -/
def padNum (w : Nat) (n : Nat) : List Char :=
  let s := (toString n).data
  List.replicate (w - s.length) '0' ++ s

/-- ISO `YYYY-MM-DD` rendering used by the date parsers. -/
def isoString (y : Int) (m d : Int) : String :=
  ⟨padNum 4 y.toNat ++ '-' :: padNum 2 m.toNat ++ '-' :: padNum 2 d.toNat⟩

/-- Model of `_parse_round_date_with_format`: parse a `a/b/c` round
date under the given field order (`"yy/mm/dd"` or `"dd/mm/yy"`) to an
ISO string; month must be 1–12 and day 1–31 (no calendar-day check
here, mirroring the source). -/
def parse_round_date_with_format (s : String) (fmt : String) : Option String :=
  if s = "" ∨ ¬ slashTriple (trimChars s.data) then none
  else
    let parts := splitChar '/' (trimChars s.data)
    match parts with
    | [a, b, c] =>
      if fmt = "yy/mm/dd" then
        match pyInt b, pyInt c with
        | some m, some d =>
          if 1 ≤ m ∧ m ≤ 12 ∧ 1 ≤ d ∧ d ≤ 31 then
            (to_year a).map (fun y => isoString y m d)
          else none
        | _, _ => none
      else if fmt = "dd/mm/yy" then
        match pyInt a, pyInt b with
        | some d, some m =>
          if 1 ≤ m ∧ m ≤ 12 ∧ 1 ≤ d ∧ d ≤ 31 then
            (to_year c).map (fun y => isoString y m d)
          else none
        | _, _ => none
      else none
    | _ => none

/-- Gregorian leap-year test. -/
def isLeapYear (y : Int) : Bool := y % 4 = 0 ∧ (y % 100 ≠ 0 ∨ y % 400 = 0)

/-- Number of days in a month of the proleptic Gregorian calendar. -/
def daysInMonth (y : Int) (m : Int) : Int :=
  if m = 2 then (if isLeapYear y then 29 else 28)
  else if m = 4 ∨ m = 6 ∨ m = 9 ∨ m = 11 then 30
  else 31

/-- A calendar date as validated by `datetime`. -/
structure CivilDate where
  year : Int
  month : Int
  day : Int
deriving DecidableEq, Repr

/-- Day number of a civil date (days since 1970-01-01, Gregorian),
used to model differences and comparisons of `datetime` values. -/
def civilDays (dt : CivilDate) : Int :=
  let y := if dt.month ≤ 2 then dt.year - 1 else dt.year
  let era := (if 0 ≤ y then y else y - 399) / 400
  let yoe := y - era * 400
  let mp := (dt.month + 9) % 12
  let doy := (153 * mp + 2) / 5 + dt.day - 1
  let doe := yoe * 365 + yoe / 4 - yoe / 100 + doy
  era * 146097 + doe - 719468

/-- Model of `datetime.strptime(s, "%Y-%m-%d")`: exactly four year
digits, dashes, one or two digits for month and day, nothing left
over, and the triple must be a real calendar date in years 1–9999. -/
def isoToDate (s : String) : Option CivilDate :=
  let l := s.data
  let ys := l.takeWhile isDig
  let r1 := l.dropWhile isDig
  if ys.length ≠ 4 then none
  else
    match r1 with
    | '-' :: r2 =>
      let ms := r2.takeWhile isDig
      let r3 := r2.dropWhile isDig
      if ms.length < 1 ∨ 2 < ms.length then none
      else
        match r3 with
        | '-' :: r4 =>
          let ds := r4.takeWhile isDig
          let r5 := r4.dropWhile isDig
          if ds.length < 1 ∨ 2 < ds.length ∨ r5 ≠ [] then none
          else
            let y : Int := natOfDigits ys
            let m : Int := natOfDigits ms
            let d : Int := natOfDigits ds
            if 1 ≤ y ∧ y ≤ 9999 ∧ 1 ≤ m ∧ m ≤ 12 ∧ 1 ≤ d ∧ d ≤ daysInMonth y m then
              some ⟨y, m, d⟩
            else none
        | _ => none
    | _ => none

/-- Day number of an ISO string accepted by `isoToDate`. -/
def isoDays (s : String) : Option Int := (isoToDate s).map civilDays

/-- The filter applied to observed round-date strings before format
inference (non-empty and matching the `\d{1,2}/\d{1,2}/\d{2,4}`
guard). -/
def dateStrsFilter (date_strings : List String) : List String :=
  date_strings.filter (fun s => s ≠ "" ∧ slashTriple (trimChars s.data))

/-- Score of one candidate date format: span in days between the
earliest and latest parseable round date, plus 1000 per day outside
the known start/end window; `none` when no date parses under the
format (the candidate is skipped). -/
def formatScore (date_strs : List String) (start_dt end_dt : Option Int)
    (fmt : String) : Option Int :=
  let parsed : List Int :=
    date_strs.filterMap (fun s => (parse_round_date_with_format s fmt).bind isoDays)
  match parsed with
  | [] => none
  | x :: xs =>
    let mn := xs.foldl min x
    let mx := xs.foldl max x
    let pen1 := match start_dt with
      | some sd => if mn < sd then (sd - mn) * 1000 else 0
      | none => 0
    let pen2 := match end_dt with
      | some ed => if ed < mx then (mx - ed) * 1000 else 0
      | none => 0
    some ((mx - mn) + pen1 + pen2)

/-- Model of `infer_date_format`: try `"yy/mm/dd"` then `"dd/mm/yy"`,
keeping the candidate with the strictly smaller score; `"yy/mm/dd"`
is the default (empty input, no parseable candidate, and ties). -/
def infer_date_format (date_strings : List String)
    (start_iso end_iso : Option String) : String :=
  let date_strs := dateStrsFilter date_strings
  if date_strs = [] then "yy/mm/dd"
  else
    let start_dt := start_iso.bind isoDays
    let end_dt := end_iso.bind isoDays
    let pick := fun (best : String × Option Int) (fmt : String) =>
      match formatScore date_strs start_dt end_dt fmt with
      | none => best
      | some sc =>
        match best.2 with
        | none => (fmt, some sc)
        | some b => if sc < b then (fmt, some sc) else best
    (List.foldl pick ("yy/mm/dd", none) ["yy/mm/dd", "dd/mm/yy"]).1

/-- Model of `parse_date_to_iso`: convert a round date string to ISO
using the given format, or fall back to trying year-first then
day-first; empty string on failure. -/
def parse_date_to_iso (date_str : String) (date_format : Option String) : String :=
  if date_str = "" then ""
  else
    match date_format with
    | some f => (parse_round_date_with_format date_str f).getD ""
    | none =>
      match parse_round_date_with_format date_str "yy/mm/dd" with
      | some r => r
      | none => (parse_round_date_with_format date_str "dd/mm/yy").getD ""

/-- The date token of the regex `(\d+)\s+(\d{2}/\d{2}/\d{2,4})`:
exactly two digits, slash, exactly two digits, slash, then two to
four digits (greedy). -/
def dateTok (l : List Char) : Option (List Char) :=
  let a := l.takeWhile isDig
  let r1 := l.dropWhile isDig
  if a.length ≠ 2 then none
  else
    match r1 with
    | '/' :: r2 =>
      let b := r2.takeWhile isDig
      let r3 := r2.dropWhile isDig
      if b.length ≠ 2 then none
      else
        match r3 with
        | '/' :: r4 =>
          let c := r4.takeWhile isDig
          if 2 ≤ c.length then some (a ++ '/' :: b ++ '/' :: c.take 4) else none
        | _ => none
    | _ => none

/-- Model of `parse_round_date`: round number and raw date from a cell
text like `"1   25/11/22"`; a leading integer alone gives a round
number with no date. -/
def parse_round_date (round_text : String) : Option Nat × Option String :=
  if round_text = "" then (none, none)
  else
    let st := trimChars round_text.data
    let ds := st.takeWhile isDig
    let r1 := st.dropWhile isDig
    if ds = [] then (none, none)
    else
      let ws := r1.takeWhile isWS
      let r2 := r1.dropWhile isWS
      if ws ≠ [] then
        match dateTok r2 with
        | some tok => (some (natOfDigits ds), some ⟨tok⟩)
        | none => (some (natOfDigits ds), none)
      else (some (natOfDigits ds), none)

/-- An `<a>` element inside a table cell: its stripped text, its
`href` attribute, and its `name`/`id` attributes (used for in-page
anchors). -/
structure Link where
  text : String
  href : Option String
  nameAttr : Option String
  idAttr : Option String
deriving DecidableEq, Repr

/-- A table cell (`<td>`): its full stripped text (`get_text`), the
links it contains, the stripped text remaining after removing all
links, and whether it contains a `span.white_note` / `span.black_note`
marker. -/
structure Cell where
  text : String
  links : List Link
  ownText : String
  whiteNote : Bool
  blackNote : Bool
deriving DecidableEq, Repr

/-- A table row (`<tr>`) as its list of cells. -/
abbrev Row := List Cell

/-- Model of `extract_text_from_cell`: link texts joined with spaces,
followed by any remaining non-link text; cell text when there are no
links or all parts are empty. -/
def extract_text_from_cell (c : Cell) : String :=
  if c.links = [] then c.text
  else
    let parts := ((c.links.map Link.text).filter (fun t => t ≠ "")) ++
      (if c.ownText ≠ "" then [c.ownText] else [])
    if parts = [] then c.text
    else ⟨List.intercalate " ".data (parts.map String.data)⟩

/-- Model of `extract_color_from_cell`: `"white"` when a white-move
marker span is present, `"black"` for the black marker, otherwise
empty. -/
def extract_color_from_cell (c : Cell) : String :=
  if c.whiteNote then "white" else if c.blackNote then "black" else ""

/-- Model of `extract_href_anchor_from_cell`: the fragment of the
first link that has an `href`, when that `href` starts with `#`. -/
def extract_href_anchor_from_cell (c : Cell) : String :=
  match c.links.find? (fun l => l.href.isSome) with
  | none => ""
  | some l =>
    match l.href with
    | some h =>
      match h.data with
      | '#' :: rest => ⟨trimChars rest⟩
      | _ => ""
    | none => ""

/-- The anchor token defined by a link, with Python truthiness: the
`name` attribute if non-empty, else the `id` attribute if non-empty. -/
def linkAnchor (l : Link) : Option String :=
  let v := match l.nameAttr with
    | some s => if s ≠ "" then some s else l.idAttr
    | none => l.idAttr
  match v with
  | some s => if s ≠ "" then some s else none
  | none => none

/-- The `anchor → player id` pair contributed by a row during the
anchor pre-pass: rows with at least two cells whose first cell text is
entirely numeric, taking the first link carrying an anchor. -/
def anchorEntry (row : Row) : Option (String × String) :=
  match row with
  | c0 :: c1 :: _ =>
    if c0.text ≠ "" ∧ c0.text.data.all isDig then
      match c1.links.findSome? linkAnchor with
      | some a => some (a, c0.text)
      | none => none
    else none
  | _ => none

/-- Model of the first pass of `fetch_tournament_report`: fold over
all rows building the anchor map (later rows overwrite earlier
entries, as dict assignment does). -/
def anchor_to_id (rows : List Row) : String → Option String :=
  rows.foldl
    (fun m row =>
      match anchorEntry row with
      | some (a, pid) => fun x => if x = a then some pid else m x
      | none => m)
    (fun _ => none)

/-- A per-player round record. -/
structure RoundRec where
  round : Option Nat
  date : Option String
  opp_name : String
  opp_id : String
  color : String
  opp_fed : String
  title : String
  wtitle : String
  opp_rating : Int
  score : Option ℚ
  forfeit : String
deriving DecidableEq, Repr

/-- A per-tournament player record. -/
structure Player where
  id : String
  name : String
  country : String
  rating : Int
  total : ℚ
  rounds : List RoundRec
deriving DecidableEq, Repr

/-- Build a `RoundRec` from the first seven cells of a round row,
resolving the opponent id through the anchor map. -/
def mkRound (am : String → Option String)
    (c0 c1 c2 c3 c4 c5 c6 : Cell) : RoundRec :=
  let rd := parse_round_date c0.text
  let anchor := extract_href_anchor_from_cell c1
  { round := rd.1
    date := rd.2
    opp_name := extract_text_from_cell c1
    opp_id := if anchor ≠ "" then (am anchor).getD "" else ""
    color := extract_color_from_cell c1
    opp_fed := c2.text
    title := c3.text
    wtitle := c4.text
    opp_rating := (pyIntStr c5.text).getD 0
    score := parse_score c6.text
    forfeit := extract_forfeit_indicator c6.text }

/-- Is this row a round-data row? (at least seven cells, first cell
text non-empty and starting with a digit). -/
def isRoundRow (row : Row) : Bool :=
  match row with
  | c0 :: _ :: _ :: _ :: _ :: _ :: _ :: _ =>
    match c0.text.data with
    | [] => false
    | c :: _ => isDig c
  | _ => false

/-- Is this row a player-summary row? (at least seven cells, first
cell text non-empty and entirely numeric). -/
def isPlayerRow (row : Row) : Bool :=
  match row with
  | c0 :: _ :: _ :: _ :: _ :: _ :: _ :: _ => c0.text ≠ "" ∧ c0.text.data.all isDig
  | _ => false

/-- Skip one round-header row (first cell text case-insensitively
`"round"`, at least seven cells) if present. -/
def skipHeader (rows : List Row) : List Row :=
  match rows with
  | row :: rest =>
    match row with
    | c0 :: _ :: _ :: _ :: _ :: _ :: _ :: _ =>
      if (⟨lowerList c0.text.data⟩ : String) = "round" then rest else rows
    | _ => rows
  | [] => []

/-- Should a parsed round row be stored? (byes — empty opponent name
and no forfeit marker — are dropped). -/
def storeRound (r : RoundRec) : Bool := r.opp_name ≠ "" ∨ r.forfeit ≠ ""

/-- Consume the maximal prefix of round-data rows following a player
row, converting each and dropping byes; returns the stored rounds and
the remaining rows. -/
def takeRounds (am : String → Option String) : List Row → List RoundRec × List Row
  | [] => ([], [])
  | row :: rest =>
    match row with
    | c0 :: c1 :: c2 :: c3 :: c4 :: c5 :: c6 :: _ =>
      if isRoundRow row then
        let r := mkRound am c0 c1 c2 c3 c4 c5 c6
        let rec_rest := takeRounds am rest
        (if storeRound r then r :: rec_rest.1 else rec_rest.1, rec_rest.2)
      else ([], row :: rest)
    | _ => ([], row :: rest)

/-- Build a `Player` from the first seven cells of a player-summary
row (rating and total default to 0 on parse failure). -/
def mkPlayer (c0 c1 c2 c5 c6 : Cell) (rounds : List RoundRec) : Player :=
  { id := c0.text
    name := extract_text_from_cell c1
    country := c2.text
    rating := (pyIntStr c5.text).getD 0
    total := if c6.text = "" then 0 else (pyFloat c6.text.data).getD 0
    rounds := rounds }



/-- One pass of the player walk, with explicit fuel so that the
function is structurally recursive (each loop iteration of the source
consumes at least one row, so `rows.length` fuel always suffices —
see `walkAux_fuel`). -/
def walkAux (am : String → Option String) : Nat → List Row → List Player
  | 0, _ => []
  | _, [] => []
  | fuel + 1, row :: rest =>
    if isPlayerRow row then
      match row with
      | c0 :: c1 :: c2 :: _ :: _ :: c5 :: c6 :: _ =>
        let res := takeRounds am (skipHeader rest)
        mkPlayer c0 c1 c2 c5 c6 res.1 :: walkAux am fuel res.2
      | _ => walkAux am fuel rest
    else walkAux am fuel rest

/-- The player walk of `fetch_tournament_report`: open a `Player` at
each player-summary row, optionally skip one header row, consume the
following round rows; other rows are skipped. -/
def walkPlayers (am : String → Option String) (rows : List Row) : List Player :=
  walkAux am rows.length rows

/-- The full per-document parse: the anchor map is built in a complete
first pass over all rows, then the player walk resolves opponents
against it. -/
def parse_players (rows : List Row) : List Player :=
  walkPlayers (anchor_to_id rows) rows

/-- A successfully parsed report. -/
structure Report where
  tournament_code : String
  players : List Player
deriving DecidableEq, Repr

instance decEqExceptReport : DecidableEq (Except String Report) := fun a b =>
  match a, b with
  | .error x, .error y =>
    if h : x = y then .isTrue (by rw [h]) else .isFalse (by intro hh; cases hh; exact h rfl)
  | .error _, .ok _ => .isFalse (by intro hh; cases hh)
  | .ok _, .error _ => .isFalse (by intro hh; cases hh)
  | .ok x, .ok y =>
    if h : x = y then .isTrue (by rw [h]) else .isFalse (by intro hh; cases hh; exact h rfl)

/-- The parsing stage of `fetch_tournament_report`: `none` input means
the results table is absent. -/
def parseReport (doc : Option (List Row)) (tournament_code : String) :
    Except String Report :=
  match doc with
  | none => .error "no data found"
  | some rows =>
    let players := parse_players rows
    if players = [] then .error "no players found"
    else .ok ⟨tournament_code, players⟩

/-- The value `1.0 - q` of the score flip, written with `mkRat` so
that it evaluates inside the kernel (see `oneMinus_eq`). -/
def oneMinus (q : ℚ) : ℚ := mkRat ((q.den : Int) - q.num) q.den


/-- The outcome of one tournament fetch, as stored in the results
list that `flatten_result` consumes. -/
structure Result where
  tournament_code : String
  success : Bool
  error : String
  players : List Player
deriving DecidableEq, Repr

/-- One flattened player-round row (the Parquet row schema built by
`flatten_result`). -/
structure FlatRow where
  tournament_code : String
  success : Bool
  error : String
  player_id : String
  player_name : String
  player_country : String
  player_rating : Int
  player_total : ℚ
  round : Option Nat
  round_date : String
  opp_name : String
  opp_id : String
  color : String
  opp_fed : String
  title : String
  wtitle : String
  opp_rating : Int
  score : Option ℚ
  forfeit : String
deriving DecidableEq, Repr

/-- The single error row emitted for a failed result. -/
def failRow (res : Result) : FlatRow :=
  { tournament_code := res.tournament_code, success := false, error := res.error,
    player_id := "", player_name := "", player_country := "",
    player_rating := 0, player_total := 0,
    round := none, round_date := "", opp_name := "", opp_id := "", color := "",
    opp_fed := "", title := "", wtitle := "", opp_rating := 0,
    score := none, forfeit := "" }

/-- The player-info-only row emitted for a player with no rounds. -/
def noRoundsRow (tcode : String) (p : Player) : FlatRow :=
  { tournament_code := tcode, success := true, error := "",
    player_id := p.id, player_name := p.name, player_country := p.country,
    player_rating := p.rating, player_total := p.total,
    round := none, round_date := "", opp_name := "", opp_id := "", color := "",
    opp_fed := "", title := "", wtitle := "", opp_rating := 0,
    score := none, forfeit := "" }

/-- The flattened row for one player-round pair (a `None` date is
stored as the empty string, which the games pass treats the same
way). -/
def flatRowOf (tcode : String) (p : Player) (r : RoundRec) : FlatRow :=
  { tournament_code := tcode, success := true, error := "",
    player_id := p.id, player_name := p.name, player_country := p.country,
    player_rating := p.rating, player_total := p.total,
    round := r.round, round_date := r.date.getD "",
    opp_name := r.opp_name, opp_id := r.opp_id, color := r.color,
    opp_fed := r.opp_fed, title := r.title, wtitle := r.wtitle,
    opp_rating := r.opp_rating, score := r.score, forfeit := r.forfeit }

/-- Model of `flatten_result`: one row per player-round, one row per
round-less player, one error row per failed result. -/
def flatten_result (res : Result) : List FlatRow :=
  if ¬ res.success then [failRow res]
  else
    (res.players.map (fun p =>
      if p.rounds = [] then [noRoundsRow res.tournament_code p]
      else p.rounds.map (flatRowOf res.tournament_code p))).flatten

/-- A reconstructed game (one per physical game). -/
structure Game where
  tournament_code : String
  round : Nat
  date : String
  white_id : String
  black_id : String
  white_score : ℚ
  forfeit : Bool
deriving DecidableEq, Repr

/-- The deduplication key of a game. -/
abbrev GKey := String × Nat × String × String

/-- The key of an emitted game. -/
def gameKey (g : Game) : GKey := (g.tournament_code, g.round, g.white_id, g.black_id)

/-- The stripped, lower-cased color of a flattened row, as the games
pass reads it. -/
def colorOf (row : FlatRow) : String := ⟨lowerList (trimChars row.color.data)⟩

/-- The stripped forfeit indicator of a flattened row, as the games
pass reads it. -/
def forfeitOf (row : FlatRow) : String := ⟨trimChars row.forfeit.data⟩

/-- The ISO date of an emitted game: the row date resolved through the
chosen per-tournament format, empty when absent or unparseable. -/
def rowDateIso (fmt : String) (row : FlatRow) : String :=
  if row.round_date ≠ "" then parse_date_to_iso row.round_date (some fmt) else ""

/-- The key/seen/emit tail of the `flatten_to_games` loop body; see
`processRow` for how the white/black ordering fixes the arguments. -/
def emitRow (fmt : String) (st : List GKey × List Game) (row : FlatRow) (rnd : Nat)
    (white_id black_id : String) (forfScore : ℚ) (scoreMap : ℚ → ℚ) :
    List GKey × List Game :=
  if (row.tournament_code, rnd, white_id, black_id) ∈ st.1 then st
  else if forfeitOf row ≠ "" then
    ((row.tournament_code, rnd, white_id, black_id) :: st.1,
      st.2 ++ [⟨row.tournament_code, rnd, rowDateIso fmt row,
        white_id, black_id, forfScore, true⟩])
  else
    match row.score with
    | some sc =>
      ((row.tournament_code, rnd, white_id, black_id) :: st.1,
        st.2 ++ [⟨row.tournament_code, rnd, rowDateIso fmt row,
          white_id, black_id, scoreMap sc, false⟩])
    | none => ((row.tournament_code, rnd, white_id, black_id) :: st.1, st.2)

/-- The loop body of `flatten_to_games`: state is the set of seen
keys plus the games emitted so far.  Skips unsuccessful, round-less,
opponent-less and color-less rows, then orders the ids by color and
runs the key/emit tail. -/
def processRow (fmt : String) (st : List GKey × List Game) (row : FlatRow) :
    List GKey × List Game :=
  if ¬ row.success then st
  else
    match row.round with
    | none => st
    | some rnd =>
      if row.player_id = "" ∨ row.opp_id = "" then st
      else if colorOf row = "white" then
        emitRow fmt st row rnd row.player_id row.opp_id
          (if forfeitOf row = "+" then 1 else 0) (fun sc => sc)
      else if colorOf row = "black" then
        emitRow fmt st row rnd row.opp_id row.player_id
          (if forfeitOf row = "+" then 0 else 1) (fun sc => oneMinus sc)
      else st

/-- The distinct round-date strings observed among successful rows
(the Python set comprehension, modelled as a deduplicated list). -/
def dateStrsOf (l : List FlatRow) : List String :=
  ((l.filter (fun r => r.round_date ≠ "" ∧ r.success)).map (fun r => r.round_date)).dedup

/-- Model of `flatten_to_games`: infer the tournament-global date
format from the observed round dates (with optional start/end bounds
looked up in the details map), then fold the dedup-and-emit loop over
the rows. -/
def flatten_to_games (flattened : List FlatRow) (tournament_code : String)
    (details_map : List (String × (Option String × Option String))) : List Game :=
  let date_strs := dateStrsOf flattened
  let bounds :=
    if details_map ≠ [] ∧ tournament_code ≠ "" then
      (details_map.lookup tournament_code).getD (none, none)
    else (none, none)
  let fmt := infer_date_format date_strs bounds.1 bounds.2
  (flattened.foldl (processRow fmt) ([], [])).2



/-- The dedup key a row would produce in the games pass (meaningful
for eligible rows). -/
def keyOf (row : FlatRow) : GKey :=
  (row.tournament_code, row.round.getD 0,
    (if colorOf row = "white" then row.player_id else row.opp_id),
    (if colorOf row = "white" then row.opp_id else row.player_id))

/-- A row that reaches the key handling of the games pass: successful,
with a round number, both ids, and a recognized color. -/
def rowEligible (row : FlatRow) : Prop :=
  row.success = true ∧ row.round.isSome ∧ row.player_id ≠ "" ∧ row.opp_id ≠ "" ∧
    (colorOf row = "white" ∨ colorOf row = "black")

instance rowEligibleDec (row : FlatRow) : Decidable (rowEligible row) := by
  unfold rowEligible
  infer_instance


/-- A plain-text cell with no links or markers (example material). -/
def exCellT (t : String) : Cell := ⟨t, [], t, false, false⟩

/-- An example player-summary row with the given id. -/
def exPlayerRow (pid : String) : Row :=
  [exCellT pid, exCellT "Alice", exCellT "USA", exCellT "", exCellT "",
   exCellT "2000", exCellT "5.0"]

/-- An example round row whose opponent-name extraction is non-empty
but whose score text parses to neither a score nor a forfeit. -/
def exRoundRowUnparseable : Row :=
  [exCellT "1 24/11/30", exCellT "Smith", exCellT "USA", exCellT "", exCellT "",
   exCellT "1900", exCellT "0.25"]

/-- An example round row that references the opponent through the
in-page anchor `a` (as `href="#a"`), played as white, score 1. -/
def exRoundRowRef (a : String) : Row :=
  [exCellT "1 24/11/30",
   ⟨"B. Player", [⟨"B. Player", some ("#" ++ a), none, none⟩], "", true, false⟩,
   exCellT "CAN", exCellT "", exCellT "", exCellT "1900", exCellT "1.0"]

/-- An example spacer row (too few cells to be a player or round row). -/
def exSpacer : Row := [exCellT ""]

/-- An example player-summary row whose name cell carries the named
anchor `a`. -/
def exPlayerRowAnchor (pid a : String) : Row :=
  [exCellT pid,
   ⟨"B. Player", [⟨"B. Player", none, some a, none⟩], "", false, false⟩,
   exCellT "CAN", exCellT "", exCellT "", exCellT "1900", exCellT "0.0"]

/-- The order-independence scenario of the anchor resolver: player
`idA` first, then a round row of `idA` referencing anchor `a`, then —
only later in the table — the player-summary row of `idB` defining
anchor `a`. -/
def exDocAnchorAfter (idA idB a : String) : List Row :=
  [exPlayerRow idA, exRoundRowRef a, exSpacer, exPlayerRowAnchor idB a]


/-- An example flattened row (successful, tournament "T", opponent
name "X") used in concrete game-reconstruction scenarios. -/
def exFlatRow (pid oppid col : String) (rnd : Nat) (date : String)
    (score : Option ℚ) (forf : String) : FlatRow :=
  { tournament_code := "T", success := true, error := "",
    player_id := pid, player_name := "", player_country := "",
    player_rating := 0, player_total := 0,
    round := some rnd, round_date := date,
    opp_name := "X", opp_id := oppid, color := col,
    opp_fed := "", title := "", wtitle := "", opp_rating := 0,
    score := score, forfeit := forf }

/-- White-perspective record of a pair with neither a parsed score nor
a forfeit indicator. -/
def exPairRowW : FlatRow := exFlatRow "100" "200" "white" 1 "" none ""

/-- Black-perspective record of the same unusable pair. -/
def exPairRowB : FlatRow := exFlatRow "200" "100" "black" 1 "" none ""

/-- First (white-perspective) record of a duplicate-key pair, with
round date "01/02/24". -/
def exDupRow1 : FlatRow := exFlatRow "100" "200" "white" 1 "01/02/24" (some 1) ""

/-- Second record with the same dedup key but a different round date
"05/02/24" (the black perspective of the same game). -/
def exDupRow2 : FlatRow := exFlatRow "200" "100" "black" 1 "05/02/24" (some 0) ""


/-- A later duplicate-key record whose round date equals the one
already observed (so it adds no new date string). -/
def exDupRow2same : FlatRow := exFlatRow "200" "100" "black" 1 "01/02/24" (some 0) ""

/-! ### Supporting lemmas -/

theorem takeRounds_len (am : String → Option String) :
    ∀ l : List Row, (takeRounds am l).2.length ≤ l.length := by
  intro l
  induction l with
  | nil => simp [takeRounds]
  | cons row rest ih =>
    match row with
    | c0 :: c1 :: c2 :: c3 :: c4 :: c5 :: c6 :: tl =>
      by_cases h : isRoundRow (c0 :: c1 :: c2 :: c3 :: c4 :: c5 :: c6 :: tl)
      · simp only [takeRounds, h, if_true]
        exact le_trans ih (Nat.le_succ _)
      · simp [takeRounds, h]
    | [] => simp [takeRounds]
    | [c0] => simp [takeRounds]
    | [c0, c1] => simp [takeRounds]
    | [c0, c1, c2] => simp [takeRounds]
    | [c0, c1, c2, c3] => simp [takeRounds]
    | [c0, c1, c2, c3, c4] => simp [takeRounds]
    | [c0, c1, c2, c3, c4, c5] => simp [takeRounds]


theorem skipHeader_len : ∀ rows : List Row, (skipHeader rows).length ≤ rows.length := by
  intro rows
  match rows with
  | [] => simp [skipHeader]
  | row :: rest =>
    match row with
    | c0 :: _ :: _ :: _ :: _ :: _ :: _ :: _ =>
      simp only [skipHeader]
      split
      · exact Nat.le_succ _
      · exact le_refl _
    | [] => simp [skipHeader]
    | [c0] => simp [skipHeader]
    | [c0, c1] => simp [skipHeader]
    | [c0, c1, c2] => simp [skipHeader]
    | [c0, c1, c2, c3] => simp [skipHeader]
    | [c0, c1, c2, c3, c4] => simp [skipHeader]
    | [c0, c1, c2, c3, c4, c5] => simp [skipHeader]


theorem walkAux_fuel (am : String → Option String) :
    ∀ (fuel fuel' : Nat) (rows : List Row), rows.length ≤ fuel → rows.length ≤ fuel' →
      walkAux am fuel rows = walkAux am fuel' rows := by
  intro fuel
  induction fuel with
  | zero =>
    intro fuel' rows h _
    have : rows = [] := List.eq_nil_of_length_eq_zero (Nat.le_zero.mp h)
    subst this
    cases fuel' <;> simp [walkAux]
  | succ n ih =>
    intro fuel' rows h h'
    cases rows with
    | nil => cases fuel' <;> simp [walkAux]
    | cons row rest =>
      cases fuel' with
      | zero => simp at h'
      | succ n' =>
        simp only [walkAux]
        have hrest : rest.length ≤ n := by simpa using h
        have hrest' : rest.length ≤ n' := by simpa using h'
        by_cases hp : isPlayerRow row
        · simp only [hp, if_true]
          match row with
          | c0 :: c1 :: c2 :: c3 :: c4 :: c5 :: c6 :: tl =>
            have hlen : (takeRounds am (skipHeader rest)).2.length ≤ rest.length :=
              le_trans (takeRounds_len am (skipHeader rest)) (skipHeader_len rest)
            rw [ih n' _ (le_trans hlen hrest) (le_trans hlen hrest')]
        · simp only [hp, if_false]
          exact ih n' rest hrest hrest'


theorem oneMinus_eq (q : ℚ) : oneMinus q = 1 - q := by
  have hd : (q.den : ℚ) ≠ 0 := by
    exact_mod_cast q.den_nz
  rw [oneMinus, Rat.mkRat_eq_div]
  push_cast
  rw [sub_div, div_self hd, Rat.num_div_den]


/-! ### Claim C5 -/

/-- C5: `parse_score` returns `none` or a value exactly in
{0, 0.5, 1}; and on a string with no forfeit indicator whose first
decimal-looking token has a value outside {0, 0.5, 1}, `parse_score`
returns `none` and `extract_forfeit_indicator` returns the empty
string. -/
theorem parse_score_range_and_reject :
    (∀ (s : String) (q : ℚ), parse_score s = some q → q = 0 ∨ q = mkRat 1 2 ∨ q = 1) ∧
    (∀ s : String,
      hasSub (lowerList (trimChars s.data)) "forfeit".data ≠ true →
      lowerList (trimChars s.data) ≠ "-".data →
      lowerList (trimChars s.data) ≠ "+".data →
      (∀ q : ℚ, firstDecimal (lowerList (trimChars s.data)) = some q →
        ¬(q = 0 ∨ q = mkRat 1 2 ∨ q = 1)) →
      parse_score s = none ∧ extract_forfeit_indicator s = "") := by
  constructor
  · intro s q h
    unfold parse_score at h
    split at h
    · exact absurd h (by simp)
    · split at h
      · exact absurd h (by simp)
      · split at h
        next q' hfd =>
          split at h
          next hcond => exact Option.some_inj.mp h ▸ hcond
          next => exact absurd h (by simp)
        next => exact absurd h (by simp)
  · intro s h1 h2 h3 h4
    constructor
    · by_cases hs : s = ""
      · simp [parse_score, hs]
      · unfold parse_score
        rw [if_neg hs]
        have hguard :
            (hasSub (lowerList (trimChars s.data)) "forfeit".data
              || decide (lowerList (trimChars s.data) = "-".data)
              || decide (lowerList (trimChars s.data) = "+".data)) = false := by
          simp [h2, h3]
          exact Bool.not_eq_true _ |>.mp h1 ▸ rfl
        rw [hguard]
        simp only [Bool.false_eq_true, if_false]
        cases hfd : firstDecimal (lowerList (trimChars s.data)) with
        | none => rfl
        | some q => simp [h4 q hfd]
    · by_cases hs : s = ""
      · simp [extract_forfeit_indicator, hs]
      · unfold extract_forfeit_indicator
        rw [if_neg hs]
        have hforf : hasSub (lowerList (trimChars s.data)) "forfeit".data = false :=
          Bool.not_eq_true _ |>.mp h1
        rw [hforf]
        simp only [Bool.false_eq_true, if_false]
        have hdash : trimChars s.data ≠ "-".data := by
          intro hh
          exact h2 (by rw [hh]; decide)
        have hplus : trimChars s.data ≠ "+".data := by
          intro hh
          exact h3 (by rw [hh]; decide)
        rw [if_neg hdash, if_neg hplus]

/-- Witness for C5 at the unparseable score text `"0.25"`. -/
theorem parse_score_range_and_reject_witness :
    parse_score "0.25" = none ∧ extract_forfeit_indicator "0.25" = "" :=
  parse_score_range_and_reject.2 "0.25" (by decide) (by decide) (by decide)
    (fun q hq => by
      have h' : firstDecimal (lowerList (trimChars "0.25".data)) = some (mkRat 1 4) := by
        decide
      rw [h'] at hq
      rw [← Option.some_inj.mp hq]
      decide)

/-! ### Claim C6 -/

/-- C6: `infer_date_format` returns `"yy/mm/dd"` when no date string
passes the guard, when neither candidate parses any date, and on
exact score ties; otherwise it returns the candidate with the
strictly smaller span-plus-penalty score (a candidate with no
parseable date loses to one with a score). -/
theorem infer_date_format_cases (ds : List String) (siso eiso : Option String) :
    (dateStrsFilter ds = [] → infer_date_format ds siso eiso = "yy/mm/dd") ∧
    (formatScore (dateStrsFilter ds) (siso.bind isoDays) (eiso.bind isoDays) "yy/mm/dd" = none →
     formatScore (dateStrsFilter ds) (siso.bind isoDays) (eiso.bind isoDays) "dd/mm/yy" = none →
     infer_date_format ds siso eiso = "yy/mm/dd") ∧
    (∀ a b : Int,
      formatScore (dateStrsFilter ds) (siso.bind isoDays) (eiso.bind isoDays) "yy/mm/dd" = some a →
      formatScore (dateStrsFilter ds) (siso.bind isoDays) (eiso.bind isoDays) "dd/mm/yy" = some b →
      a ≤ b → infer_date_format ds siso eiso = "yy/mm/dd") ∧
    (∀ a b : Int,
      formatScore (dateStrsFilter ds) (siso.bind isoDays) (eiso.bind isoDays) "yy/mm/dd" = some a →
      formatScore (dateStrsFilter ds) (siso.bind isoDays) (eiso.bind isoDays) "dd/mm/yy" = some b →
      b < a → infer_date_format ds siso eiso = "dd/mm/yy") ∧
    (∀ a : Int,
      formatScore (dateStrsFilter ds) (siso.bind isoDays) (eiso.bind isoDays) "yy/mm/dd" = some a →
      formatScore (dateStrsFilter ds) (siso.bind isoDays) (eiso.bind isoDays) "dd/mm/yy" = none →
      infer_date_format ds siso eiso = "yy/mm/dd") ∧
    (∀ b : Int,
      formatScore (dateStrsFilter ds) (siso.bind isoDays) (eiso.bind isoDays) "yy/mm/dd" = none →
      formatScore (dateStrsFilter ds) (siso.bind isoDays) (eiso.bind isoDays) "dd/mm/yy" = some b →
      infer_date_format ds siso eiso = "dd/mm/yy") := by
  by_cases hempty : dateStrsFilter ds = []
  · have hres : infer_date_format ds siso eiso = "yy/mm/dd" := by
      simp [infer_date_format, hempty]
    have hnone : ∀ fmt, formatScore (dateStrsFilter ds)
        (siso.bind isoDays) (eiso.bind isoDays) fmt = none := by
      intro fmt
      rw [hempty]
      simp [formatScore]
    refine ⟨fun _ => hres, fun _ _ => hres, fun a b _ _ _ => hres,
      fun a b h1 _ _ => ?_, fun a _ _ => hres, fun b h1 h2 => ?_⟩
    · rw [hnone] at h1
      cases h1
    · rw [hnone] at h2
      cases h2
  · have hbase : infer_date_format ds siso eiso =
        (List.foldl
          (fun (best : String × Option Int) (fmt : String) =>
            match formatScore (dateStrsFilter ds) (siso.bind isoDays) (eiso.bind isoDays) fmt with
            | none => best
            | some sc =>
              match best.2 with
              | none => (fmt, some sc)
              | some b => if sc < b then (fmt, some sc) else best)
          ("yy/mm/dd", none) ["yy/mm/dd", "dd/mm/yy"]).1 := by
      simp [infer_date_format, hempty]
    refine ⟨fun h => absurd h hempty, ?_, ?_, ?_, ?_, ?_⟩
    · intro h1 h2
      rw [hbase]
      simp [List.foldl, h1, h2]
    · intro a b h1 h2 hle
      rw [hbase]
      simp only [List.foldl, h1, h2]
      rw [if_neg (by omega)]
    · intro a b h1 h2 hlt
      rw [hbase]
      simp only [List.foldl, h1, h2]
      rw [if_pos hlt]
    · intro a h1 h2
      rw [hbase]
      simp [List.foldl, h1, h2]
    · intro b h1 h2
      rw [hbase]
      simp [List.foldl, h1, h2]

/-- Witness for C6 on an empty observation list and on a concrete
tie. -/
theorem infer_date_format_cases_witness :
    infer_date_format [] none none = "yy/mm/dd" :=
  (infer_date_format_cases [] none none).1 (by decide)

/-! ### Claim C8 -/

/-- C8: the parse fails with "no data found" iff the results table is
absent, fails with "no players found" iff the table is present but
the walk extracts no players, and otherwise succeeds with the
non-empty player list. -/
theorem parseReport_error_cases (doc : Option (List Row)) (tc : String) :
    (parseReport doc tc = .error "no data found" ↔ doc = none) ∧
    (parseReport doc tc = .error "no players found" ↔
      ∃ rows, doc = some rows ∧ parse_players rows = []) ∧
    (∀ rows, doc = some rows → parse_players rows ≠ [] →
      parseReport doc tc = .ok ⟨tc, parse_players rows⟩ ∧ parse_players rows ≠ []) := by
  cases doc with
  | none =>
    refine ⟨by simp [parseReport], ?_, ?_⟩
    · simp [parseReport]
    · intro rows h
      exact absurd h (by simp)
  | some rows =>
    by_cases hp : parse_players rows = []
    · refine ⟨?_, ?_, ?_⟩
      · simp [parseReport, hp]
      · simp [parseReport, hp]
      · intro rows' hr hne
        cases hr
        exact absurd hp hne
    · refine ⟨?_, ?_, ?_⟩
      · simp [parseReport, hp]
      · simp [parseReport, hp]
      · intro rows' hr hne
        cases hr
        exact ⟨by simp [parseReport, hp], hne⟩

/-- Witness for C8: a table with one player-summary row parses to a
report with that one player; an absent table gives "no data found". -/
theorem parseReport_error_cases_witness :
    parseReport (some [[⟨"100", [], "100", false, false⟩, ⟨"A", [], "A", false, false⟩,
      ⟨"USA", [], "USA", false, false⟩, ⟨"", [], "", false, false⟩,
      ⟨"", [], "", false, false⟩, ⟨"2000", [], "2000", false, false⟩,
      ⟨"5", [], "5", false, false⟩]]) "T" =
      .ok ⟨"T", parse_players [[⟨"100", [], "100", false, false⟩, ⟨"A", [], "A", false, false⟩,
        ⟨"USA", [], "USA", false, false⟩, ⟨"", [], "", false, false⟩,
        ⟨"", [], "", false, false⟩, ⟨"2000", [], "2000", false, false⟩,
        ⟨"5", [], "5", false, false⟩]]⟩ ∧
    parseReport none "T" = .error "no data found" :=
  ⟨(parseReport_error_cases (some _) "T").2.2 _ rfl (by decide) |>.1,
   (parseReport_error_cases none "T").1.mpr rfl⟩


/-! ### Claim C3 -/

theorem emitRow_inv (fmt : String) (st : List GKey × List Game) (row : FlatRow)
    (rnd : Nat) (white_id black_id : String) (forfScore : ℚ) (scoreMap : ℚ → ℚ)
    (h : (st.2.map gameKey).Nodup ∧ ∀ g ∈ st.2, gameKey g ∈ st.1) :
    (((emitRow fmt st row rnd white_id black_id forfScore scoreMap).2.map gameKey).Nodup ∧
      ∀ g ∈ (emitRow fmt st row rnd white_id black_id forfScore scoreMap).2,
        gameKey g ∈ (emitRow fmt st row rnd white_id black_id forfScore scoreMap).1) := by
  obtain ⟨hnd, hsub⟩ := h
  unfold emitRow
  split
  · exact ⟨hnd, hsub⟩
  next hseen =>
    have hemit :
        ∀ g0 : Game, gameKey g0 = (row.tournament_code, rnd, white_id, black_id) →
        ((st.2 ++ [g0]).map gameKey).Nodup ∧
          ∀ g ∈ st.2 ++ [g0],
            gameKey g ∈ (row.tournament_code, rnd, white_id, black_id) :: st.1 := by
      intro g0 hg0
      constructor
      · rw [List.map_append, List.nodup_append]
        refine ⟨hnd, by simp, ?_⟩
        intro k hk hk'
        simp only [List.map_cons, List.map_nil, List.mem_singleton] at hk'
        subst hk'
        obtain ⟨g, hg, hgk⟩ := List.mem_map.mp hk
        exact hseen (hg0 ▸ hgk ▸ hsub g hg)
      · intro g hg
        rcases List.mem_append.mp hg with h1 | h1
        · exact List.mem_cons_of_mem _ (hsub g h1)
        · simp only [List.mem_singleton] at h1
          subst h1
          exact hg0 ▸ List.mem_cons_self _ _
    split
    · exact hemit _ rfl
    · split
      · exact hemit _ rfl
      · exact ⟨hnd, fun g hg => List.mem_cons_of_mem _ (hsub g hg)⟩

theorem processRow_inv (fmt : String) (st : List GKey × List Game) (row : FlatRow)
    (h : (st.2.map gameKey).Nodup ∧ ∀ g ∈ st.2, gameKey g ∈ st.1) :
    ((processRow fmt st row).2.map gameKey).Nodup ∧
      ∀ g ∈ (processRow fmt st row).2, gameKey g ∈ (processRow fmt st row).1 := by
  unfold processRow
  split
  · exact h
  · split
    · exact h
    · split
      · exact h
      · split
        · exact emitRow_inv _ _ _ _ _ _ _ _ h
        · split
          · exact emitRow_inv _ _ _ _ _ _ _ _ h
          · exact h

theorem emitRow_forfeit_emit (fmt : String) (st : List GKey × List Game) (row : FlatRow)
    (rnd : Nat) (white_id black_id : String) (forfScore : ℚ) (scoreMap : ℚ → ℚ)
    (g : Game)
    (hemit : (emitRow fmt st row rnd white_id black_id forfScore scoreMap).2 = st.2 ++ [g])
    (hf : forfeitOf row ≠ "") :
    g.forfeit = true ∧ g.white_score = forfScore ∧ g.white_id = white_id ∧
      g.black_id = black_id := by
  unfold emitRow at hemit
  split at hemit
  · exact absurd hemit (by simp)
  · have h2 := List.append_cancel_left hemit
    simp only [List.cons.injEq, and_true] at h2
    subst h2
    exact ⟨rfl, rfl, rfl, rfl⟩

/-- C3: a record with a non-empty forfeit indicator that is turned
into a GameRecord yields `white_score` 1 for a white-perspective "+"
record and 0 for "-", the mirror image for a black-perspective
record, and an emitted forfeit flag of `true`. -/
theorem processRow_forfeit_mapping (fmt : String) (st : List GKey × List Game)
    (row : FlatRow) (g : Game)
    (hemit : (processRow fmt st row).2 = st.2 ++ [g])
    (hf : forfeitOf row ≠ "") :
    g.forfeit = true ∧
    (colorOf row = "white" →
      g.white_score = (if forfeitOf row = "+" then 1 else 0)) ∧
    (colorOf row = "black" →
      g.white_score = (if forfeitOf row = "+" then 0 else 1)) := by
  unfold processRow at hemit
  split at hemit
  · exact absurd hemit (by simp)
  · split at hemit
    · exact absurd hemit (by simp)
    · split at hemit
      · exact absurd hemit (by simp)
      · split at hemit
        next hw =>
          obtain ⟨h1, h2, _, _⟩ := emitRow_forfeit_emit _ _ _ _ _ _ _ _ _ hemit hf
          refine ⟨h1, fun _ => h2, fun hb => ?_⟩
          rw [hw] at hb
          exact absurd hb (by decide)
        · split at hemit
          next hb =>
            obtain ⟨h1, h2, _, _⟩ := emitRow_forfeit_emit _ _ _ _ _ _ _ _ _ hemit hf
            refine ⟨h1, fun hw => ?_, fun _ => h2⟩
            rw [hb] at hw
            exact absurd hw (by decide)
          · exact absurd hemit (by simp)

/-- Witness for C3: a black-perspective forfeit "-" record emits a
forfeit game with `white_score` 1. -/
theorem processRow_forfeit_mapping_witness :
    ({ tournament_code := "T", round := 2, date := "", white_id := "200",
       black_id := "100", white_score := 1, forfeit := true } : Game).forfeit = true ∧
    ({ tournament_code := "T", round := 2, date := "", white_id := "200",
       black_id := "100", white_score := 1, forfeit := true } : Game).white_score = 1 := by
  have hmap := processRow_forfeit_mapping "yy/mm/dd" ([], [])
    { tournament_code := "T", success := true, error := "", player_id := "100",
      player_name := "", player_country := "", player_rating := 0, player_total := 0,
      round := some 2, round_date := "", opp_name := "X", opp_id := "200",
      color := "black", opp_fed := "", title := "", wtitle := "", opp_rating := 0,
      score := none, forfeit := "-" }
    { tournament_code := "T", round := 2, date := "", white_id := "200",
      black_id := "100", white_score := 1, forfeit := true }
    (by decide) (by decide)
  refine ⟨hmap.1, ?_⟩
  have h2 := hmap.2.2 (by decide)
  rw [h2]
  decide

/-! ### Claim C4 -/

theorem foldl_processRow_inv (fmt : String) :
    ∀ (l : List FlatRow) (st : List GKey × List Game),
      (st.2.map gameKey).Nodup → (∀ g ∈ st.2, gameKey g ∈ st.1) →
      (((l.foldl (processRow fmt) st).2.map gameKey).Nodup ∧
        ∀ g ∈ (l.foldl (processRow fmt) st).2,
          gameKey g ∈ (l.foldl (processRow fmt) st).1) := by
  intro l
  induction l with
  | nil => intro st h1 h2; exact ⟨h1, h2⟩
  | cons row rest ih =>
    intro st h1 h2
    simp only [List.foldl_cons]
    have := processRow_inv fmt st row ⟨h1, h2⟩
    exact ih (processRow fmt st row) this.1 this.2

/-- C4: in any list returned by `flatten_to_games`, at most one
GameRecord is present per `(tournament_code, round, white_id,
black_id)` key (the key list is duplicate-free). -/
theorem flatten_to_games_key_nodup (flattened : List FlatRow) (tournament_code : String)
    (details_map : List (String × (Option String × Option String))) :
    ((flatten_to_games flattened tournament_code details_map).map gameKey).Nodup := by
  simp only [flatten_to_games]
  exact (foldl_processRow_inv _ flattened ([], []) (by simp) (by simp)).1

/-! ### Claim C2 -/

theorem score_forfeit_exclusive (s : String) :
    parse_score s = none ∨ extract_forfeit_indicator s = "" := by
  by_cases hs : s = ""
  · left
    simp [parse_score, hs]
  by_cases hforf : hasSub (lowerList (trimChars s.data)) "forfeit".data = true
  · left
    simp [parse_score, hs, hforf]
  by_cases hd : lowerList (trimChars s.data) = "-".data
  · left
    simp [parse_score, hs, hd]
  by_cases hp : lowerList (trimChars s.data) = "+".data
  · left
    simp [parse_score, hs, hp]
  · right
    unfold extract_forfeit_indicator
    rw [if_neg hs]
    rw [if_neg (by simpa using hforf)]
    have hdash : trimChars s.data ≠ "-".data := by
      intro hh
      exact hd (by rw [hh]; decide)
    have hplus : trimChars s.data ≠ "+".data := by
      intro hh
      exact hp (by rw [hh]; decide)
    rw [if_neg hdash, if_neg hplus]

theorem takeRounds_src (am : String → Option String) :
    ∀ (l : List Row) (r : RoundRec), r ∈ (takeRounds am l).1 →
      storeRound r = true ∧ ∃ c0 c1 c2 c3 c4 c5 c6, r = mkRound am c0 c1 c2 c3 c4 c5 c6 := by
  intro l
  induction l with
  | nil => intro r hr; simp [takeRounds] at hr
  | cons row rest ih =>
    intro r hr
    match row with
    | c0 :: c1 :: c2 :: c3 :: c4 :: c5 :: c6 :: tl =>
      by_cases h : isRoundRow (c0 :: c1 :: c2 :: c3 :: c4 :: c5 :: c6 :: tl)
      · simp only [takeRounds, h, if_true] at hr
        by_cases hst : storeRound (mkRound am c0 c1 c2 c3 c4 c5 c6) = true
        · rw [if_pos hst] at hr
          rcases List.mem_cons.mp hr with h1 | h1
          · exact ⟨h1 ▸ hst, c0, c1, c2, c3, c4, c5, c6, h1⟩
          · exact ih r h1
        · rw [if_neg hst] at hr
          exact ih r hr
      · simp [takeRounds, h] at hr
    | [] => simp [takeRounds] at hr
    | [c0] => simp [takeRounds] at hr
    | [c0, c1] => simp [takeRounds] at hr
    | [c0, c1, c2] => simp [takeRounds] at hr
    | [c0, c1, c2, c3] => simp [takeRounds] at hr
    | [c0, c1, c2, c3, c4] => simp [takeRounds] at hr
    | [c0, c1, c2, c3, c4, c5] => simp [takeRounds] at hr

theorem walkAux_round_src (am : String → Option String) :
    ∀ (fuel : Nat) (rows : List Row) (p : Player), p ∈ walkAux am fuel rows →
      ∀ r ∈ p.rounds,
        storeRound r = true ∧ ∃ c0 c1 c2 c3 c4 c5 c6, r = mkRound am c0 c1 c2 c3 c4 c5 c6 := by
  intro fuel
  induction fuel with
  | zero => intro rows p hp; simp [walkAux] at hp
  | succ n ih =>
    intro rows p hp r hr
    cases rows with
    | nil => simp [walkAux] at hp
    | cons row rest =>
      simp only [walkAux] at hp
      by_cases hpl : isPlayerRow row
      · rw [if_pos hpl] at hp
        match row with
        | c0 :: c1 :: c2 :: c3 :: c4 :: c5 :: c6 :: tl =>
          simp only at hp
          rcases List.mem_cons.mp hp with h1 | h1
          · subst h1
            exact takeRounds_src am _ r (by simpa [mkPlayer] using hr)
          · exact ih _ p h1 r hr
        | [] => exact absurd hpl (by simp [isPlayerRow])
        | [c0] => exact absurd hpl (by simp [isPlayerRow])
        | [c0, c1] => exact absurd hpl (by simp [isPlayerRow])
        | [c0, c1, c2] => exact absurd hpl (by simp [isPlayerRow])
        | [c0, c1, c2, c3] => exact absurd hpl (by simp [isPlayerRow])
        | [c0, c1, c2, c3, c4] => exact absurd hpl (by simp [isPlayerRow])
        | [c0, c1, c2, c3, c4, c5] => exact absurd hpl (by simp [isPlayerRow])
      · rw [if_neg hpl] at hp
        exact ih _ p hp r hr

/-- C2 is corrected by this counterexample: a stored round row that
represents a contested round (non-empty opponent name) but has a null
score and an empty forfeit indicator — neither of the two conditions
holds, where the claim demands exactly one. -/
theorem round_score_forfeit_counterexample :
    ∃ p ∈ parse_players [exPlayerRow "100", exRoundRowUnparseable],
      ∃ r ∈ p.rounds, (r.opp_name ≠ "" ∨ r.forfeit ≠ "") ∧
        r.score = none ∧ r.forfeit = "" := by
  decide

/-- C2 (amended): for every stored round row, at most one of
{`score` non-null, `forfeit` non-empty} holds — never both; a stored
contested row may have neither when its score text is unparseable. -/
theorem rounds_score_forfeit_at_most_one (rows : List Row) :
    ∀ p ∈ parse_players rows, ∀ r ∈ p.rounds, ¬(r.score ≠ none ∧ r.forfeit ≠ "") := by
  intro p hp r hr
  obtain ⟨_, c0, c1, c2, c3, c4, c5, c6, rfl⟩ :=
    walkAux_round_src (anchor_to_id rows) rows.length rows p hp r hr
  rintro ⟨hsc, hff⟩
  rcases score_forfeit_exclusive c6.text with h | h
  · exact hsc (by simpa [mkRound] using h)
  · exact hff (by simpa [mkRound] using h)

/-- Witness for the amended C2 at a concrete parsed document. -/
theorem rounds_score_forfeit_at_most_one_witness :
    ¬(({ round := some 1,
         date := some "24/11/30",
         opp_name := "Smith",
         opp_id := "",
         color := "",
         opp_fed := "USA",
         title := "",
         wtitle := "",
         opp_rating := 1900,
         score := none,
         forfeit := "" } : RoundRec).score ≠ none ∧
      ({ round := some 1,
         date := some "24/11/30",
         opp_name := "Smith",
         opp_id := "",
         color := "",
         opp_fed := "USA",
         title := "",
         wtitle := "",
         opp_rating := 1900,
         score := none,
         forfeit := "" } : RoundRec).forfeit ≠ "") :=
  rounds_score_forfeit_at_most_one [exPlayerRow "100", exRoundRowUnparseable]
    { id := "100",
      name := "Alice",
      country := "USA",
      rating := 2000,
      total := 5,
      rounds := [{ round := some 1,
                   date := some "24/11/30",
                   opp_name := "Smith",
                   opp_id := "",
                   color := "",
                   opp_fed := "USA",
                   title := "",
                   wtitle := "",
                   opp_rating := 1900,
                   score := none,
                   forfeit := "" }] }
    (by decide)
    { round := some 1,
      date := some "24/11/30",
      opp_name := "Smith",
      opp_id := "",
      color := "",
      opp_fed := "USA",
      title := "",
      wtitle := "",
      opp_rating := 1900,
      score := none,
      forfeit := "" }
    (by decide)

/-! ### Claim C7 -/

theorem emitRow_mem (fmt : String) (st : List GKey × List Game) (row : FlatRow)
    (rnd : Nat) (white_id black_id : String) (forfScore : ℚ) (scoreMap : ℚ → ℚ)
    (g : Game) :
    g ∈ (emitRow fmt st row rnd white_id black_id forfScore scoreMap).2 →
      g ∈ st.2 ∨ g.round = rnd := by
  intro hg
  unfold emitRow at hg
  split at hg
  · exact Or.inl hg
  · split at hg
    · rcases List.mem_append.mp hg with h1 | h1
      · exact Or.inl h1
      · simp only [List.mem_singleton] at h1
        subst h1
        exact Or.inr rfl
    · split at hg
      · rcases List.mem_append.mp hg with h1 | h1
        · exact Or.inl h1
        · simp only [List.mem_singleton] at h1
          subst h1
          exact Or.inr rfl
      · exact Or.inl hg

theorem processRow_mem (fmt : String) (st : List GKey × List Game) (row : FlatRow)
    (g : Game) :
    g ∈ (processRow fmt st row).2 →
      g ∈ st.2 ∨ (row.success = true ∧ row.round = some g.round) := by
  intro hg
  unfold processRow at hg
  split at hg
  · exact Or.inl hg
  next hsucc =>
    split at hg
    · exact Or.inl hg
    next rnd hrnd =>
      split at hg
      · exact Or.inl hg
      · split at hg
        · rcases emitRow_mem _ _ _ _ _ _ _ _ _ hg with h1 | h1
          · exact Or.inl h1
          · exact Or.inr ⟨by simpa using hsucc, by rw [hrnd, h1]⟩
        · split at hg
          · rcases emitRow_mem _ _ _ _ _ _ _ _ _ hg with h1 | h1
            · exact Or.inl h1
            · exact Or.inr ⟨by simpa using hsucc, by rw [hrnd, h1]⟩
          · exact Or.inl hg

theorem foldl_processRow_mem (fmt : String) :
    ∀ (l : List FlatRow) (st : List GKey × List Game) (g : Game),
      g ∈ (l.foldl (processRow fmt) st).2 →
      g ∈ st.2 ∨ ∃ row ∈ l, row.success = true ∧ row.round = some g.round := by
  intro l
  induction l with
  | nil => intro st g hg; exact Or.inl hg
  | cons row rest ih =>
    intro st g hg
    simp only [List.foldl_cons] at hg
    rcases ih (processRow fmt st row) g hg with h1 | h1
    · rcases processRow_mem fmt st row g h1 with h2 | h2
      · exact Or.inl h2
      · exact Or.inr ⟨row, List.mem_cons_self _ _, h2⟩
    · obtain ⟨row', hrow', hp⟩ := h1
      exact Or.inr ⟨row', List.mem_cons_of_mem _ hrow', hp⟩

theorem flatten_result_src (res : Result) (row : FlatRow)
    (hrow : row ∈ flatten_result res) :
    row.round = none ∨
      ∃ p ∈ res.players, ∃ r ∈ p.rounds, row = flatRowOf res.tournament_code p r := by
  unfold flatten_result at hrow
  split at hrow
  · simp only [List.mem_singleton] at hrow
    subst hrow
    exact Or.inl rfl
  · obtain ⟨lp, hlp, hrowlp⟩ := List.mem_flatten.mp hrow
    obtain ⟨p, hp, hlp'⟩ := List.mem_map.mp hlp
    subst hlp'
    by_cases hr : p.rounds = []
    · rw [if_pos hr] at hrowlp
      simp only [List.mem_singleton] at hrowlp
      subst hrowlp
      exact Or.inl rfl
    · rw [if_neg hr] at hrowlp
      obtain ⟨r, hrr, hrow'⟩ := List.mem_map.mp hrowlp
      exact Or.inr ⟨p, hp, r, hrr, hrow'.symm⟩

/-- C7: a round row whose opponent-name extraction is empty and whose
score text yields no forfeit indicator is never stored in a player's
rounds; and every reconstructed game originates from a stored round
(so such a row never yields a GameRecord). -/
theorem bye_rows_dropped :
    (∀ (rows : List Row), ∀ p ∈ parse_players rows, ∀ r ∈ p.rounds,
      r.opp_name ≠ "" ∨ r.forfeit ≠ "") ∧
    (∀ (res : Result) (tc : String)
      (dm : List (String × (Option String × Option String))),
      ∀ g ∈ flatten_to_games (flatten_result res) tc dm,
      ∃ p ∈ res.players, ∃ r ∈ p.rounds, r.round = some g.round) := by
  constructor
  · intro rows p hp r hr
    have h := (walkAux_round_src (anchor_to_id rows) rows.length rows p hp r hr).1
    simpa [storeRound] using h
  · intro res tc dm g hg
    simp only [flatten_to_games] at hg
    rcases foldl_processRow_mem _ _ _ _ hg with h1 | h1
    · simp at h1
    · obtain ⟨row, hrow, hsucc, hrnd⟩ := h1
      rcases flatten_result_src res row hrow with h2 | h2
      · rw [h2] at hrnd
        cases hrnd
      · obtain ⟨p, hp, r, hr, hroweq⟩ := h2
        refine ⟨p, hp, r, hr, ?_⟩
        rw [hroweq] at hrnd
        exact hrnd

/-- Witness for C7 on a one-player, one-round result that yields one
game. -/
theorem bye_rows_dropped_witness :
    ∃ p ∈ ([{ id := "100",
              name := "A",
              country := "USA",
              rating := 2000,
              total := 1,
              rounds := [{ round := some 1,
                           date := none,
                           opp_name := "B",
                           opp_id := "200",
                           color := "white",
                           opp_fed := "",
                           title := "",
                           wtitle := "",
                           opp_rating := 0,
                           score := some 1,
                           forfeit := "" }] }] : List Player),
      ∃ r ∈ Player.rounds p, r.round =
        some ({ tournament_code := "T",
                round := 1,
                date := "",
                white_id := "100",
                black_id := "200",
                white_score := 1,
                forfeit := false } : Game).round :=
  bye_rows_dropped.2
    { tournament_code := "T",
      success := true,
      error := "",
      players := [{ id := "100",
                    name := "A",
                    country := "USA",
                    rating := 2000,
                    total := 1,
                    rounds := [{ round := some 1,
                                 date := none,
                                 opp_name := "B",
                                 opp_id := "200",
                                 color := "white",
                                 opp_fed := "",
                                 title := "",
                                 wtitle := "",
                                 opp_rating := 0,
                                 score := some 1,
                                 forfeit := "" }] }] }
    "T" [] _ (by decide)

/-! ### Claim C1 -/

theorem emitRow_seen (fmt : String) (st : List GKey × List Game) (row : FlatRow)
    (rnd : Nat) (white_id black_id : String) (forfScore : ℚ) (scoreMap : ℚ → ℚ)
    (h : (row.tournament_code, rnd, white_id, black_id) ∈ st.1) :
    emitRow fmt st row rnd white_id black_id forfScore scoreMap = st := by
  unfold emitRow
  rw [if_pos h]

theorem emitRow_fresh (fmt : String) (st : List GKey × List Game) (row : FlatRow)
    (rnd : Nat) (white_id black_id : String) (forfScore : ℚ) (scoreMap : ℚ → ℚ)
    (h : (row.tournament_code, rnd, white_id, black_id) ∉ st.1) :
    (emitRow fmt st row rnd white_id black_id forfScore scoreMap).1 =
      (row.tournament_code, rnd, white_id, black_id) :: st.1 := by
  unfold emitRow
  rw [if_neg h]
  split
  · rfl
  · split
    · rfl
    · rfl

theorem emitRow_usable (fmt : String) (st : List GKey × List Game) (row : FlatRow)
    (rnd : Nat) (white_id black_id : String) (forfScore : ℚ) (scoreMap : ℚ → ℚ)
    (h : (row.tournament_code, rnd, white_id, black_id) ∉ st.1)
    (hu : forfeitOf row ≠ "" ∨ row.score.isSome) :
    ∃ g : Game, emitRow fmt st row rnd white_id black_id forfScore scoreMap =
      ((row.tournament_code, rnd, white_id, black_id) :: st.1, st.2 ++ [g]) ∧
      gameKey g = (row.tournament_code, rnd, white_id, black_id) := by
  unfold emitRow
  rw [if_neg h]
  by_cases hf : forfeitOf row ≠ ""
  · rw [if_pos hf]
    exact ⟨_, rfl, rfl⟩
  · rw [if_neg hf]
    rcases hu with hc | hc
    · exact absurd hc hf
    · obtain ⟨sc, hsc⟩ := Option.isSome_iff_exists.mp hc
      rw [hsc]
      exact ⟨_, rfl, rfl⟩

theorem processRow_white (fmt : String) (st : List GKey × List Game) (row : FlatRow)
    (n : Nat) (hs : row.success = true) (hr : row.round = some n)
    (hpid : row.player_id ≠ "") (hopp : row.opp_id ≠ "")
    (hw : colorOf row = "white") :
    processRow fmt st row = emitRow fmt st row n row.player_id row.opp_id
      (if forfeitOf row = "+" then 1 else 0) (fun sc => sc) := by
  unfold processRow
  rw [if_neg (by simp [hs]), hr]
  simp only []
  rw [if_neg (by simp [hpid, hopp]), if_pos hw]

theorem processRow_black (fmt : String) (st : List GKey × List Game) (row : FlatRow)
    (n : Nat) (hs : row.success = true) (hr : row.round = some n)
    (hpid : row.player_id ≠ "") (hopp : row.opp_id ≠ "")
    (hb : colorOf row = "black") :
    processRow fmt st row = emitRow fmt st row n row.opp_id row.player_id
      (if forfeitOf row = "+" then 0 else 1) (fun sc => oneMinus sc) := by
  unfold processRow
  rw [if_neg (by simp [hs]), hr]
  simp only []
  rw [if_neg (by simp [hpid, hopp]), if_neg (by rw [hb]; decide), if_pos hb]

theorem keyOf_white (row : FlatRow) (n : Nat) (hw : colorOf row = "white")
    (hr : row.round = some n) :
    keyOf row = (row.tournament_code, n, row.player_id, row.opp_id) := by
  simp [keyOf, hw, hr]

theorem keyOf_black (row : FlatRow) (n : Nat) (hb : colorOf row = "black")
    (hr : row.round = some n) :
    keyOf row = (row.tournament_code, n, row.opp_id, row.player_id) := by
  simp [keyOf, hb, hr]

/-- C1 is corrected by this counterexample: the two records describe
the same physical game (cross-referenced ids, opposite colors, same
tournament and round), yet `flatten_to_games` emits no game at all,
because neither record carries a parsed score or forfeit indicator
(the earlier record still claims the dedup key before being
dropped). -/
theorem pair_no_game_counterexample :
    (colorOf exPairRowW = "white" ∧ colorOf exPairRowB = "black" ∧
     exPairRowW.opp_id = exPairRowB.player_id ∧
     exPairRowB.opp_id = exPairRowW.player_id ∧
     exPairRowW.round = some 1 ∧ exPairRowB.round = some 1 ∧
     exPairRowW.tournament_code = exPairRowB.tournament_code ∧
     exPairRowW.success = true ∧ exPairRowB.success = true) ∧
    flatten_to_games [exPairRowW, exPairRowB] "T" [] = [] := by
  decide

/-- C1 (amended): for a pair of per-player records describing the same
physical game, `flatten_to_games` emits exactly one GameRecord for
that game provided the earlier record of the pair carries a parsed
score or a forfeit indicator; its key is the pair's white/black key.
(When neither holds for the earlier record, no game is emitted.) -/
theorem pair_one_game (rA rB : FlatRow) (tc : String)
    (dm : List (String × (Option String × Option String))) (n : Nat)
    (hsA : rA.success = true) (hsB : rB.success = true)
    (hrA : rA.round = some n) (hrB : rB.round = some n)
    (htc : rB.tournament_code = rA.tournament_code)
    (hpA : rA.player_id ≠ "") (hpB : rB.player_id ≠ "")
    (hxA : rA.opp_id = rB.player_id) (hxB : rB.opp_id = rA.player_id)
    (hcol : (colorOf rA = "white" ∧ colorOf rB = "black") ∨
      (colorOf rA = "black" ∧ colorOf rB = "white"))
    (husable : forfeitOf rA ≠ "" ∨ rA.score.isSome) :
    (flatten_to_games [rA, rB] tc dm).map gameKey = [keyOf rA] := by
  simp only [flatten_to_games, List.foldl_cons, List.foldl_nil]
  generalize infer_date_format (dateStrsOf [rA, rB]) _ _ = fmt
  have hoppA : rA.opp_id ≠ "" := by rw [hxA]; exact hpB
  have hoppB : rB.opp_id ≠ "" := by rw [hxB]; exact hpA
  rcases hcol with ⟨hwA, hbB⟩ | ⟨hbA, hwB⟩
  · rw [processRow_white fmt ([], []) rA n hsA hrA hpA hoppA hwA]
    obtain ⟨g, hst1, hkg⟩ := emitRow_usable fmt ([], []) rA n rA.player_id rA.opp_id
      (if forfeitOf rA = "+" then 1 else 0) (fun sc => sc) (by simp) husable
    rw [hst1]
    rw [processRow_black fmt _ rB n hsB hrB hpB hoppB hbB]
    rw [emitRow_seen fmt _ rB n rB.opp_id rB.player_id _ _
      (by simp [htc, hxA, hxB])]
    simp only [List.nil_append, List.map_cons, List.map_nil]
    rw [hkg, keyOf_white rA n hwA hrA]
  · rw [processRow_black fmt ([], []) rA n hsA hrA hpA hoppA hbA]
    obtain ⟨g, hst1, hkg⟩ := emitRow_usable fmt ([], []) rA n rA.opp_id rA.player_id
      (if forfeitOf rA = "+" then 0 else 1) (fun sc => oneMinus sc) (by simp) husable
    rw [hst1]
    rw [processRow_white fmt _ rB n hsB hrB hpB hoppB hwB]
    rw [emitRow_seen fmt _ rB n rB.player_id rB.opp_id _ _
      (by simp [htc, hxA, hxB])]
    simp only [List.nil_append, List.map_cons, List.map_nil]
    rw [hkg, keyOf_black rA n hbA hrA]

/-- Witness for the amended C1: a concrete white/black pair with a
score yields the single expected key. -/
theorem pair_one_game_witness :
    (flatten_to_games [exDupRow1, exDupRow2] "T" []).map gameKey = [keyOf exDupRow1] :=
  pair_one_game exDupRow1 exDupRow2 "T" [] 1 (by decide) (by decide) (by decide)
    (by decide) (by decide) (by decide) (by decide) (by decide) (by decide)
    (Or.inl ⟨by decide, by decide⟩) (Or.inr (by decide))

/-! ### Claim C10 -/

theorem processRow_ineligible (fmt : String) (st : List GKey × List Game)
    (row : FlatRow) (h : ¬ rowEligible row) : processRow fmt st row = st := by
  unfold processRow
  split
  · rfl
  next hsucc =>
    split
    · rfl
    next n hrn =>
      split
      · rfl
      next hids =>
        split
        next hw =>
          exact absurd ⟨by simpa using hsucc, by simp [hrn], (not_or.mp hids).1,
            (not_or.mp hids).2, Or.inl hw⟩ h
        · split
          next hb =>
            exact absurd ⟨by simpa using hsucc, by simp [hrn], (not_or.mp hids).1,
              (not_or.mp hids).2, Or.inr hb⟩ h
          · rfl

theorem processRow_seen_skip (fmt : String) (st : List GKey × List Game)
    (row : FlatRow) (hel : rowEligible row) (hk : keyOf row ∈ st.1) :
    processRow fmt st row = st := by
  obtain ⟨hs, hrs, hpid, hopp, hcol⟩ := hel
  obtain ⟨n, hr⟩ := Option.isSome_iff_exists.mp hrs
  rcases hcol with hw | hb
  · rw [processRow_white fmt st row n hs hr hpid hopp hw]
    exact emitRow_seen fmt st row n row.player_id row.opp_id _ _
      (by rwa [keyOf_white row n hw hr] at hk)
  · rw [processRow_black fmt st row n hs hr hpid hopp hb]
    exact emitRow_seen fmt st row n row.opp_id row.player_id _ _
      (by rwa [keyOf_black row n hb hr] at hk)

theorem processRow_seen_mem (fmt : String) (st : List GKey × List Game)
    (row : FlatRow) (k : GKey) :
    k ∈ (processRow fmt st row).1 ↔
      k ∈ st.1 ∨ (rowEligible row ∧ keyOf row = k) := by
  by_cases hel : rowEligible row
  · by_cases hk : keyOf row ∈ st.1
    · rw [processRow_seen_skip fmt st row hel hk]
      constructor
      · exact Or.inl
      · rintro (h | ⟨_, rfl⟩)
        · exact h
        · exact hk
    · obtain ⟨hs, hrs, hpid, hopp, hcol⟩ := hel
      obtain ⟨n, hr⟩ := Option.isSome_iff_exists.mp hrs
      have hone : (processRow fmt st row).1 = keyOf row :: st.1 := by
        rcases hcol with hw | hb
        · rw [processRow_white fmt st row n hs hr hpid hopp hw,
            keyOf_white row n hw hr]
          exact emitRow_fresh fmt st row n row.player_id row.opp_id _ _
            (by rwa [keyOf_white row n hw hr] at hk)
        · rw [processRow_black fmt st row n hs hr hpid hopp hb,
            keyOf_black row n hb hr]
          exact emitRow_fresh fmt st row n row.opp_id row.player_id _ _
            (by rwa [keyOf_black row n hb hr] at hk)
      rw [hone]
      constructor
      · intro h
        rcases List.mem_cons.mp h with h1 | h1
        · exact Or.inr ⟨⟨hs, by simp [hr], hpid, hopp, hcol⟩, h1.symm⟩
        · exact Or.inl h1
      · rintro (h | ⟨_, rfl⟩)
        · exact List.mem_cons_of_mem _ h
        · exact List.mem_cons_self _ _
  · rw [processRow_ineligible fmt st row hel]
    constructor
    · exact Or.inl
    · rintro (h | ⟨hel', _⟩)
      · exact h
      · exact absurd hel' hel

theorem foldl_seen_mem (fmt : String) :
    ∀ (l : List FlatRow) (st : List GKey × List Game) (k : GKey),
      k ∈ (l.foldl (processRow fmt) st).1 ↔
        k ∈ st.1 ∨ ∃ row ∈ l, rowEligible row ∧ keyOf row = k := by
  intro l
  induction l with
  | nil => intro st k; simp
  | cons row rest ih =>
    intro st k
    simp only [List.foldl_cons]
    rw [ih (processRow fmt st row) k, processRow_seen_mem fmt st row k]
    constructor
    · rintro ((h | ⟨hel, hkey⟩) | ⟨row', hrow', hp⟩)
      · exact Or.inl h
      · exact Or.inr ⟨row, List.mem_cons_self _ _, hel, hkey⟩
      · exact Or.inr ⟨row', List.mem_cons_of_mem _ hrow', hp⟩
    · rintro (h | ⟨row', hrow', hp⟩)
      · exact Or.inl (Or.inl h)
      · rcases List.mem_cons.mp hrow' with h1 | h1
        · exact Or.inl (Or.inr (h1 ▸ hp))
        · exact Or.inr ⟨row', h1, hp⟩

theorem foldl_min_le_init : ∀ (xs : List Int) (x : Int), xs.foldl min x ≤ x := by
  intro xs
  induction xs with
  | nil => intro x; exact le_refl x
  | cons y ys ih =>
    intro x
    exact le_trans (ih (min x y)) (min_le_left x y)

theorem foldl_min_le : ∀ (xs : List Int) (x z : Int), z ∈ x :: xs → xs.foldl min x ≤ z := by
  intro xs
  induction xs with
  | nil =>
    intro x z hz
    simp only [List.mem_singleton] at hz
    subst hz
    exact le_refl z
  | cons y ys ih =>
    intro x z hz
    rcases List.mem_cons.mp hz with h1 | h1
    · subst h1
      exact le_trans (foldl_min_le_init ys (min z y)) (min_le_left z y)
    · rcases List.mem_cons.mp h1 with h2 | h2
      · subst h2
        exact le_trans (foldl_min_le_init ys (min x z)) (min_le_right x z)
      · exact ih (min x y) z (List.mem_cons_of_mem _ h2)

theorem foldl_min_mem : ∀ (xs : List Int) (x : Int), xs.foldl min x ∈ x :: xs := by
  intro xs
  induction xs with
  | nil => intro x; exact List.mem_singleton.mpr rfl
  | cons y ys ih =>
    intro x
    have h := ih (min x y)
    rcases List.mem_cons.mp h with h1 | h1
    · rcases min_choice x y with h2 | h2
      · exact List.mem_cons.mpr (Or.inl (by rw [List.foldl_cons, h1, h2]))
      · exact List.mem_cons.mpr (Or.inr (List.mem_cons.mpr (Or.inl (by rw [List.foldl_cons, h1, h2]))))
    · exact List.mem_cons.mpr (Or.inr (List.mem_cons.mpr (Or.inr (by rw [List.foldl_cons]; exact h1))))

theorem foldl_min_congr (x y : Int) (xs ys : List Int)
    (h : ∀ z : Int, z ∈ x :: xs ↔ z ∈ y :: ys) :
    xs.foldl min x = ys.foldl min y :=
  le_antisymm
    (foldl_min_le xs x _ ((h _).mpr (foldl_min_mem ys y)))
    (foldl_min_le ys y _ ((h _).mp (foldl_min_mem xs x)))

theorem foldl_max_ge_init : ∀ (xs : List Int) (x : Int), x ≤ xs.foldl max x := by
  intro xs
  induction xs with
  | nil => intro x; exact le_refl x
  | cons y ys ih =>
    intro x
    exact le_trans (le_max_left x y) (ih (max x y))

theorem foldl_max_ge : ∀ (xs : List Int) (x z : Int), z ∈ x :: xs → z ≤ xs.foldl max x := by
  intro xs
  induction xs with
  | nil =>
    intro x z hz
    simp only [List.mem_singleton] at hz
    subst hz
    exact le_refl z
  | cons y ys ih =>
    intro x z hz
    rcases List.mem_cons.mp hz with h1 | h1
    · subst h1
      exact le_trans (le_max_left z y) (foldl_max_ge_init ys (max z y))
    · rcases List.mem_cons.mp h1 with h2 | h2
      · subst h2
        exact le_trans (le_max_right x z) (foldl_max_ge_init ys (max x z))
      · exact ih (max x y) z (List.mem_cons_of_mem _ h2)

theorem foldl_max_mem : ∀ (xs : List Int) (x : Int), xs.foldl max x ∈ x :: xs := by
  intro xs
  induction xs with
  | nil => intro x; exact List.mem_singleton.mpr rfl
  | cons y ys ih =>
    intro x
    have h := ih (max x y)
    rcases List.mem_cons.mp h with h1 | h1
    · rcases max_choice x y with h2 | h2
      · exact List.mem_cons.mpr (Or.inl (by rw [List.foldl_cons, h1, h2]))
      · exact List.mem_cons.mpr (Or.inr (List.mem_cons.mpr (Or.inl (by rw [List.foldl_cons, h1, h2]))))
    · exact List.mem_cons.mpr (Or.inr (List.mem_cons.mpr (Or.inr (by rw [List.foldl_cons]; exact h1))))

theorem foldl_max_congr (x y : Int) (xs ys : List Int)
    (h : ∀ z : Int, z ∈ x :: xs ↔ z ∈ y :: ys) :
    xs.foldl max x = ys.foldl max y :=
  le_antisymm
    (foldl_max_ge ys y _ ((h _).mp (foldl_max_mem xs x)))
    (foldl_max_ge xs x _ ((h _).mpr (foldl_max_mem ys y)))

theorem formatScore_congr (d1 d2 : List String) (sd ed : Option Int) (fmt : String)
    (h : ∀ s, s ∈ d1 ↔ s ∈ d2) :
    formatScore d1 sd ed fmt = formatScore d2 sd ed fmt := by
  have hp : ∀ v : Int,
      v ∈ d1.filterMap (fun s => (parse_round_date_with_format s fmt).bind isoDays) ↔
      v ∈ d2.filterMap (fun s => (parse_round_date_with_format s fmt).bind isoDays) := by
    intro v
    simp only [List.mem_filterMap]
    constructor
    · rintro ⟨s, hs, hv⟩
      exact ⟨s, (h s).mp hs, hv⟩
    · rintro ⟨s, hs, hv⟩
      exact ⟨s, (h s).mpr hs, hv⟩
  unfold formatScore
  cases h1 : d1.filterMap (fun s => (parse_round_date_with_format s fmt).bind isoDays) with
  | nil =>
    cases h2 : d2.filterMap (fun s => (parse_round_date_with_format s fmt).bind isoDays) with
    | nil => rfl
    | cons y ys =>
      exfalso
      have : y ∈ d1.filterMap (fun s => (parse_round_date_with_format s fmt).bind isoDays) :=
        (hp y).mpr (h2 ▸ List.mem_cons_self _ _)
      rw [h1] at this
      exact absurd this (List.not_mem_nil y)
  | cons x xs =>
    cases h2 : d2.filterMap (fun s => (parse_round_date_with_format s fmt).bind isoDays) with
    | nil =>
      exfalso
      have : x ∈ d2.filterMap (fun s => (parse_round_date_with_format s fmt).bind isoDays) :=
        (hp x).mp (h1 ▸ List.mem_cons_self _ _)
      rw [h2] at this
      exact absurd this (List.not_mem_nil x)
    | cons y ys =>
      have hmm : ∀ z : Int, z ∈ x :: xs ↔ z ∈ y :: ys := by
        intro z
        rw [← h1, ← h2]
        exact hp z
      simp only []
      rw [foldl_min_congr x y xs ys hmm, foldl_max_congr x y xs ys hmm]

theorem infer_date_format_congr (d1 d2 : List String) (siso eiso : Option String)
    (h : ∀ s, s ∈ d1 ↔ s ∈ d2) :
    infer_date_format d1 siso eiso = infer_date_format d2 siso eiso := by
  have hf : ∀ s, s ∈ dateStrsFilter d1 ↔ s ∈ dateStrsFilter d2 := by
    intro s
    simp only [dateStrsFilter, List.mem_filter]
    exact and_congr_left (fun _ => h s)
  have hsc : ∀ fmt, formatScore (dateStrsFilter d1) (siso.bind isoDays)
      (eiso.bind isoDays) fmt =
      formatScore (dateStrsFilter d2) (siso.bind isoDays) (eiso.bind isoDays) fmt :=
    fun fmt => formatScore_congr _ _ _ _ fmt hf
  unfold infer_date_format
  by_cases h1 : dateStrsFilter d1 = []
  · have h2 : dateStrsFilter d2 = [] := by
      rw [List.eq_nil_iff_forall_not_mem] at h1 ⊢
      exact fun s hs => h1 s ((hf s).mpr hs)
    rw [if_pos h1, if_pos h2]
  · have h2 : ¬ dateStrsFilter d2 = [] := by
      intro hh
      apply h1
      rw [List.eq_nil_iff_forall_not_mem] at hh ⊢
      exact fun s hs => hh s ((hf s).mp hs)
    rw [if_neg h1, if_neg h2]
    simp only [hsc]

theorem dateStrsOf_mem (l : List FlatRow) (s : String) :
    s ∈ dateStrsOf l ↔
      ∃ row ∈ l, row.round_date ≠ "" ∧ row.success = true ∧ row.round_date = s := by
  unfold dateStrsOf
  rw [List.mem_dedup]
  constructor
  · intro h
    obtain ⟨row, hrow, hrs⟩ := List.mem_map.mp h
    have hf := List.mem_filter.mp hrow
    have hcond := of_decide_eq_true hf.2
    exact ⟨row, hf.1, hcond.1, hcond.2, hrs⟩
  · rintro ⟨row, hrow, hne, hsucc, hs⟩
    exact List.mem_map.mpr ⟨row, List.mem_filter.mpr ⟨hrow,
      decide_eq_true (by exact ⟨hne, hsucc⟩)⟩, hs⟩

/-- C10 is corrected by this counterexample: the second record shares
the first record's dedup key (it is the same game seen from black),
yet removing it changes the output — its distinct round-date string
flips the inferred date format, changing the emitted game's date. -/
theorem later_duplicate_changes_output :
    rowEligible exDupRow2 ∧ keyOf exDupRow2 = keyOf exDupRow1 ∧
    flatten_to_games [exDupRow1, exDupRow2] "T" [] ≠
      flatten_to_games [exDupRow1] "T" [] := by
  refine ⟨?_, ?_, ?_⟩
  · decide
  · decide
  · decide

/-- C10 (amended): a later record whose key was already claimed by an
earlier eligible record has no effect on the output — all emitted
fields for that key come from the earliest record — provided the
later record's round date adds no new date string to the
tournament-global date-format inference (it is empty or already
observed on another successful row). -/
theorem later_duplicate_no_effect (l1 l2 : List FlatRow) (r : FlatRow) (tc : String)
    (dm : List (String × (Option String × Option String)))
    (hel : rowEligible r)
    (hdup : ∃ row ∈ l1, rowEligible row ∧ keyOf row = keyOf r)
    (hdate : r.round_date = "" ∨
      ∃ row ∈ l1 ++ l2, row.success = true ∧ row.round_date = r.round_date) :
    flatten_to_games (l1 ++ r :: l2) tc dm = flatten_to_games (l1 ++ l2) tc dm := by
  have hmem : ∀ s, s ∈ dateStrsOf (l1 ++ r :: l2) ↔ s ∈ dateStrsOf (l1 ++ l2) := by
    intro s
    rw [dateStrsOf_mem, dateStrsOf_mem]
    constructor
    · rintro ⟨row, hrow, hne, hsucc, hs⟩
      rcases List.mem_append.mp hrow with h1 | h1
      · exact ⟨row, List.mem_append_left _ h1, hne, hsucc, hs⟩
      · rcases List.mem_cons.mp h1 with h2 | h2
        · subst h2
          rcases hdate with h3 | ⟨row', hrow', hsucc', heq⟩
          · exact absurd h3 hne
          · exact ⟨row', hrow', heq ▸ hne, hsucc', heq.trans hs⟩
        · exact ⟨row, List.mem_append_right _ h2, hne, hsucc, hs⟩
    · rintro ⟨row, hrow, hne, hsucc, hs⟩
      rcases List.mem_append.mp hrow with h1 | h1
      · exact ⟨row, List.mem_append_left _ h1, hne, hsucc, hs⟩
      · exact ⟨row, List.mem_append_right _ (List.mem_cons_of_mem _ h1), hne, hsucc, hs⟩
  simp only [flatten_to_games]
  rw [infer_date_format_congr _ _ _ _ hmem]
  rw [List.foldl_append, List.foldl_append, List.foldl_cons]
  rw [processRow_seen_skip _ _ r hel
    ((foldl_seen_mem _ l1 ([], []) (keyOf r)).mpr (Or.inr hdup))]

/-- Witness for the amended C10: a later duplicate-key record whose
round date was already observed leaves the output unchanged. -/
theorem later_duplicate_no_effect_witness :
    flatten_to_games [exDupRow1, exDupRow2same] "T" [] =
      flatten_to_games [exDupRow1] "T" [] :=
  later_duplicate_no_effect [exDupRow1] [] exDupRow2same "T" []
    (by decide)
    ⟨exDupRow1, by decide, by decide, by decide⟩
    (Or.inr ⟨exDupRow1, by decide, by decide, by decide⟩)

/-! ### Claim C9 -/

theorem anchorEntry_exPlayerRow (pid : String) : anchorEntry (exPlayerRow pid) = none := by
  unfold exPlayerRow exCellT anchorEntry
  simp only []
  split
  · rfl
  · rfl

theorem anchorEntry_exRoundRowRef (a : String) : anchorEntry (exRoundRowRef a) = none := by
  unfold exRoundRowRef exCellT anchorEntry
  simp only []
  rw [if_neg (by decide)]

theorem anchorEntry_exSpacer : anchorEntry exSpacer = none := by decide

theorem linkAnchor_nameAttr (t : String) (h : Option String) (a : String) (ha : a ≠ "") :
    linkAnchor ⟨t, h, some a, none⟩ = some a := by
  unfold linkAnchor
  simp only []
  rw [if_pos ha]
  simp only []
  rw [if_pos ha]

theorem anchorEntry_exPlayerRowAnchor (pid a : String) (h1 : pid ≠ "")
    (h2 : pid.data.all isDig = true) (ha : a ≠ "") :
    anchorEntry (exPlayerRowAnchor pid a) = some (a, pid) := by
  unfold exPlayerRowAnchor exCellT anchorEntry
  simp only []
  rw [if_pos ⟨h1, h2⟩]
  rw [List.findSome?_cons]
  rw [linkAnchor_nameAttr _ _ _ ha]

theorem anchor_exDoc (idA idB a : String) (hB1 : idB ≠ "")
    (hB2 : idB.data.all isDig = true) (ha : a ≠ "") :
    anchor_to_id (exDocAnchorAfter idA idB a) a = some idB := by
  unfold anchor_to_id exDocAnchorAfter
  simp only [List.foldl_cons, List.foldl_nil, anchorEntry_exPlayerRow,
    anchorEntry_exRoundRowRef, anchorEntry_exSpacer,
    anchorEntry_exPlayerRowAnchor idB a hB1 hB2 ha]
  simp

theorem walkAux_cons_skip (am : String → Option String) (fuel : Nat) (row : Row)
    (rest : List Row) (hp : isPlayerRow row = false) :
    walkAux am (fuel + 1) (row :: rest) = walkAux am fuel rest := by
  simp only [walkAux]
  rw [if_neg (by simp [hp])]

theorem walkAux_cons_player (am : String → Option String) (fuel : Nat)
    (c0 c1 c2 c3 c4 c5 c6 : Cell) (tl : List Cell) (rest : List Row)
    (hp : isPlayerRow (c0 :: c1 :: c2 :: c3 :: c4 :: c5 :: c6 :: tl) = true) :
    walkAux am (fuel + 1) ((c0 :: c1 :: c2 :: c3 :: c4 :: c5 :: c6 :: tl) :: rest) =
      mkPlayer c0 c1 c2 c5 c6 (takeRounds am (skipHeader rest)).1 ::
        walkAux am fuel (takeRounds am (skipHeader rest)).2 := by
  simp only [walkAux]
  rw [if_pos hp]

theorem extract_href_exRef (a : String) (ha2 : trimChars a.data = a.data) :
    extract_href_anchor_from_cell
      ⟨"B. Player", [⟨"B. Player", some ("#" ++ a), none, none⟩], "", true, false⟩ = a := by
  have hd : ("#" ++ a).data = '#' :: a.data := by
    rw [String.data_append]
    rfl
  simp [extract_href_anchor_from_cell, hd, ha2]

/-- C9: the anchor map is built over all rows before round
extraction, so a round row whose opponent anchor is defined by a
player-summary row appearing later in the table still resolves
`opp_id` to that player's id: in this parametric document the round
row of `idA` references anchor `a`, defined only afterwards by the
summary row of `idB`, and the stored round's `opp_id` is `idB`. -/
theorem anchor_resolution_order_independent (idA idB a : String)
    (hA1 : idA ≠ "") (hA2 : idA.data.all isDig = true)
    (hB1 : idB ≠ "") (hB2 : idB.data.all isDig = true)
    (ha : a ≠ "") (ha2 : trimChars a.data = a.data) :
    (parse_players (exDocAnchorAfter idA idB a)).map
      (fun p => (p.id, p.rounds.map RoundRec.opp_id)) = [(idA, [idB]), (idB, [])] := by
  have ham := anchor_exDoc idA idB a hB1 hB2 ha
  set am := anchor_to_id (exDocAnchorAfter idA idB a) with hAM
  have hp1 : isPlayerRow (exPlayerRow idA) = true := by
    simp [isPlayerRow, exPlayerRow, exCellT, hA1, hA2]
  have hp2 : isPlayerRow (exPlayerRowAnchor idB a) = true := by
    simp [isPlayerRow, exPlayerRowAnchor, exCellT, hB1, hB2]
  show (walkAux am (exDocAnchorAfter idA idB a).length (exDocAnchorAfter idA idB a)).map
      (fun p => (p.id, p.rounds.map RoundRec.opp_id)) = [(idA, [idB]), (idB, [])]
  have hlen : (exDocAnchorAfter idA idB a).length = 4 := rfl
  rw [hlen]
  unfold exDocAnchorAfter exPlayerRow
  rw [show (4 : Nat) = 3 + 1 from rfl,
    walkAux_cons_player am 3 (exCellT idA) (exCellT "Alice") (exCellT "USA")
      (exCellT "") (exCellT "") (exCellT "2000") (exCellT "5.0") []
      [exRoundRowRef a, exSpacer, exPlayerRowAnchor idB a]
      (by simpa [exPlayerRow] using hp1)]
  have hskip : skipHeader [exRoundRowRef a, exSpacer, exPlayerRowAnchor idB a] =
      [exRoundRowRef a, exSpacer, exPlayerRowAnchor idB a] := rfl
  rw [hskip]
  have htake : takeRounds am [exRoundRowRef a, exSpacer, exPlayerRowAnchor idB a] =
      ([mkRound am (exCellT "1 24/11/30")
          ⟨"B. Player", [⟨"B. Player", some ("#" ++ a), none, none⟩], "", true, false⟩
          (exCellT "CAN") (exCellT "") (exCellT "") (exCellT "1900") (exCellT "1.0")],
        [exSpacer, exPlayerRowAnchor idB a]) := rfl
  rw [htake]
  rw [show (3 : Nat) = 2 + 1 from rfl,
    walkAux_cons_skip am 2 exSpacer [exPlayerRowAnchor idB a] (by decide)]
  rw [show (2 : Nat) = 1 + 1 from rfl]
  unfold exPlayerRowAnchor
  rw [walkAux_cons_player am 1 (exCellT idB)
      ⟨"B. Player", [⟨"B. Player", none, some a, none⟩], "", false, false⟩
      (exCellT "CAN") (exCellT "") (exCellT "") (exCellT "1900") (exCellT "0.0") [] []
      (by simpa [exPlayerRowAnchor] using hp2)]
  have hoppid : (mkRound am (exCellT "1 24/11/30")
      ⟨"B. Player", [⟨"B. Player", some ("#" ++ a), none, none⟩], "", true, false⟩
      (exCellT "CAN") (exCellT "") (exCellT "") (exCellT "1900") (exCellT "1.0")).opp_id
      = idB := by
    simp only [mkRound, extract_href_exRef a ha2]
    rw [if_pos ha, ham]
    rfl
  simp only [List.map_cons, List.map_nil, mkPlayer]
  rw [hoppid]
  simp [exCellT, walkAux, takeRounds, skipHeader]


/-- Witness for C9 at concrete ids and anchor. -/
theorem anchor_resolution_order_independent_witness :
    (parse_players (exDocAnchorAfter "100" "200" "7")).map
      (fun p => (p.id, p.rounds.map RoundRec.opp_id)) = [("100", ["200"]), ("200", [])] :=
  anchor_resolution_order_independent "100" "200" "7" (by decide) (by decide)
    (by decide) (by decide) (by decide) (by decide)

end FideReports
